import Mathlib

/-!
# Session management of `goserver/session`

A shallow embedding of `session.go` (signed cookie codec, `New`, `Find`) and
`manager.go` (plain `Manager`) together with the standard-library routines they
call (`encoding/base64`, `net/url`, `strings.Split`, `crypto/hmac`, `crypto/sha1`,
`fmt.Sprintf("%x")`, the cookie accessors of `net/http`).

Go strings are byte sequences: they are lists of bytes here.  The process-wide
variable `SessionCookieSecret` is an explicit argument `secret`.
-/

namespace SessionPkg

/-! ## Bytes, strings, errors -/

abbrev Byte := Fin 256

/-- Go `string` / `[]byte`: a finite sequence of bytes. -/
abbrev Str := List Byte

/-- Conversion `byte(n)` of an unsigned integer: the low eight bits. -/
def byte (n : Nat) : Byte := ⟨n % 256, Nat.mod_lt _ (by decide)⟩

/-- Bytes of an ASCII string literal. -/
def str (s : String) : Str := s.toList.map (fun c => byte c.toNat)

/-- Error values that the package and the library routines it calls can return. -/
inductive Error where
  /-- Value `http.ErrNoCookie`. -/
  | ErrNoCookie
  /-- Type `url.EscapeError`: the offending escape. -/
  | EscapeError (s : Str)
  /-- Type `base64.CorruptInputError`: the offset of the illegal input byte. -/
  | CorruptInputError (off : Nat)
  /-- Result of `fmt.Errorf(msg)`. -/
  | Errorf (msg : Str)
  /-- Error handed back by an external collaborator (Store, serialization, StoreManager). -/
  | External (msg : Str)
  deriving DecidableEq, Repr

/-- The error `fmt.Errorf("Invalid session ID")` of `decodeSessionID`. -/
def InvalidSessionID : Error := Error.Errorf (str "Invalid session ID")

/-- The error `fmt.Errorf("session cookie value is empty")` of `Manager.Retrieve`. -/
def EmptyValue : Error := Error.Errorf (str "session cookie value is empty")

instance instDecidableEqExcept {ε α : Type} [DecidableEq ε] [DecidableEq α] :
    DecidableEq (Except ε α)
  | .ok a, .ok b => decidable_of_iff (a = b) ⟨fun h => h ▸ rfl, fun h => Except.ok.inj h⟩
  | .error a, .error b =>
    decidable_of_iff (a = b) ⟨fun h => h ▸ rfl, fun h => Except.error.inj h⟩
  | .ok _, .error _ => isFalse (fun h => Except.noConfusion h)
  | .error _, .ok _ => isFalse (fun h => Except.noConfusion h)

/-! ### Character constants -/

/-- The byte `'-'`. -/
abbrev chDash : Byte := 45
/-- The byte `'%'`. -/
abbrev chPercent : Byte := 37
/-- The byte `'+'`. -/
abbrev chPlus : Byte := 43
/-- The byte `' '`. -/
abbrev chSpace : Byte := 32
/-- The byte `'='`, the padding character of `base64.StdEncoding`. -/
abbrev chPad : Byte := 61
/-- The byte `'\n'`. -/
abbrev chLF : Byte := 10
/-- The byte `'\r'`. -/
abbrev chCR : Byte := 13

/-! ## `fmt.Sprintf("%x", b)` -/

/-- Digits `"0123456789abcdef"` used by the `%x` verb. -/
def ldigits : Str := str "0123456789abcdef"

/-- Lower-case hexadecimal rendering of a byte slice, two digits per byte. -/
def hex : List Byte → Str
  | [] => []
  | b :: bs => ldigits.getD (b.val >>> 4) 0 :: ldigits.getD (b.val &&& 0xF) 0 :: hex bs

/-! ## `encoding/base64`, `StdEncoding` -/

/-- Alphabet `encodeStd` of the standard encoding. -/
def encodeStd : Str :=
  str "ABCDEFGHIJKLMNOPQRSTUVWXYZabcdefghijklmnopqrstuvwxyz0123456789+/"

/-- Table lookup `enc.encode[i]`. -/
def encodeChar (i : Nat) : Byte := encodeStd.getD i 0

/-- Table lookup `enc.decodeMap[c]`: the position of `c` in the alphabet, `0xff` for a
byte outside it. -/
def decodeMap (c : Byte) : Nat :=
  let i := encodeStd.indexOf c
  if i < 64 then i else 0xff

/-- Function `(*Encoding).EncodeToString` for `StdEncoding` (padding `'='`). -/
def EncodeToString : List Byte → Str
  | b0 :: b1 :: b2 :: rest =>
    let val := b0.val <<< 16 ||| b1.val <<< 8 ||| b2.val
    encodeChar (val >>> 18 &&& 0x3F) :: encodeChar (val >>> 12 &&& 0x3F) ::
      encodeChar (val >>> 6 &&& 0x3F) :: encodeChar (val &&& 0x3F) :: EncodeToString rest
  | [b0, b1] =>
    let val := b0.val <<< 16 ||| b1.val <<< 8
    [encodeChar (val >>> 18 &&& 0x3F), encodeChar (val >>> 12 &&& 0x3F),
      encodeChar (val >>> 6 &&& 0x3F), chPad]
  | [b0] =>
    let val := b0.val <<< 16
    [encodeChar (val >>> 18 &&& 0x3F), encodeChar (val >>> 12 &&& 0x3F), chPad, chPad]
  | [] => []

/-- The loop `for si < len(src) && (src[si] == '\n' || src[si] == '\r') { si++ }` of
`decodeQuantum`; `src` is the input from offset `si` on. -/
def skipNewlines : List Byte → Nat → List Byte × Nat
  | [], si => ([], si)
  | c :: rest, si =>
    if c = chLF ∨ c = chCR then skipNewlines rest (si + 1) else (c :: rest, si)

/-- The closing part of `decodeQuantum`: the sextets `dbuf[0..3]` (missing ones are zero)
are packed into `val`, and the first `dlen - 1` of its three bytes are written. -/
def quantumBytes (dbuf : List Nat) (dlen : Nat) : List Byte :=
  let val := dbuf.getD 0 0 <<< 18 ||| dbuf.getD 1 0 <<< 12 ||| dbuf.getD 2 0 <<< 6 ||| dbuf.getD 3 0
  [byte (val >>> 16), byte (val >>> 8), byte (val >>> 0)].take (dlen - 1)

/-- Padding branch of `decodeQuantum`, entered when the byte at offset `si - 1` is `'='`
and `j` sextets have been read; `src` is the input from offset `si` on. Non-strict
decoding: the unused low bits of the last sextet are not checked. -/
def decodePadding (j : Nat) (dbuf : List Nat) (out : List Byte) (src : List Byte) (si : Nat) :
    Except Error (List Byte) :=
  if j = 0 ∨ j = 1 then
    -- incorrect padding
    .error (.CorruptInputError (si - 1))
  else
    let afterPad : Except Error (List Byte × Nat) :=
      if j = 2 then
        -- "==" is expected, the first "=" is already consumed
        match skipNewlines src si with
        | ([], si1) => .error (.CorruptInputError si1)          -- not enough padding
        | (c :: rest, si1) =>
          if c ≠ chPad then .error (.CorruptInputError (si1 - 1)) -- incorrect padding
          else .ok (rest, si1 + 1)
      else .ok (src, si)
    match afterPad with
    | .error e => .error e
    | .ok (src1, si1) =>
      match skipNewlines src1 si1 with
      | ([], _) => .ok (out ++ quantumBytes dbuf j)
      | (_ :: _, si2) => .error (.CorruptInputError si2)         -- trailing garbage

/-- Function `(*Encoding).Decode` for `StdEncoding`: the driver loop
`for si < len(src) { decodeQuantum }` and the per-byte loop of `decodeQuantum` as one
recursion over the input. `j` and `dbuf` are the locals of `decodeQuantum` (number of
sextets read in the current quantum, and the sextets), `out` is `dst[:n]`, `src` is the
input from offset `si` on. The word-at-a-time fast paths of `Decode` compute the same
result and are not modelled separately. -/
def decodeLoop (j : Nat) (dbuf : List Nat) (out : List Byte) : List Byte → Nat →
    Except Error (List Byte)
  | [], si =>
    if j = 0 then .ok out
    else .error (.CorruptInputError (si - j))
  | c :: rest, si =>
    let o := decodeMap c
    if o ≠ 0xff then
      if j = 3 then
        -- fourth sextet: the quantum is complete, three bytes are written
        decodeLoop 0 [] (out ++ quantumBytes (dbuf ++ [o]) 4) rest (si + 1)
      else decodeLoop (j + 1) (dbuf ++ [o]) out rest (si + 1)
    else if c = chLF ∨ c = chCR then decodeLoop j dbuf out rest (si + 1)
    else if c ≠ chPad then .error (.CorruptInputError si)
    else decodePadding j dbuf out rest (si + 1)

/-- Function `(*Encoding).DecodeString` for `StdEncoding`; the bytes decoded before an
error are dropped, as every caller in this package ignores them. -/
def DecodeString (s : Str) : Except Error (List Byte) := decodeLoop 0 [] [] s 0

/-! ## `net/url` -/

/-- Function `shouldEscape(c, encodeQueryComponent)`: everything but ASCII letters,
digits and `-_.~` is escaped. -/
def shouldEscape (c : Byte) : Bool :=
  if (97 ≤ c.val ∧ c.val ≤ 122) ∨ (65 ≤ c.val ∧ c.val ≤ 90) ∨ (48 ≤ c.val ∧ c.val ≤ 57) then false
  else if c = chDash ∨ c = 95 ∨ c = 46 ∨ c = 126 then false
  else true

/-- Digits `upperhex`. -/
def upperhex : Str := str "0123456789ABCDEF"

/-- Function `url.QueryEscape`. -/
def QueryEscape : Str → Str
  | [] => []
  | c :: rest =>
    if shouldEscape c then
      if c = chSpace then chPlus :: QueryEscape rest
      else chPercent :: upperhex.getD (c.val >>> 4) 0 :: upperhex.getD (c.val &&& 15) 0 ::
        QueryEscape rest
    else c :: QueryEscape rest

/-- Function `ishex`. -/
def ishex (c : Byte) : Bool :=
  (48 ≤ c.val ∧ c.val ≤ 57) ∨ (97 ≤ c.val ∧ c.val ≤ 102) ∨ (65 ≤ c.val ∧ c.val ≤ 70)

/-- Function `unhex`. -/
def unhex (c : Byte) : Nat :=
  if 48 ≤ c.val ∧ c.val ≤ 57 then c.val - 48
  else if 97 ≤ c.val ∧ c.val ≤ 102 then c.val - 97 + 10
  else if 65 ≤ c.val ∧ c.val ≤ 70 then c.val - 65 + 10
  else 0

/-- Function `url.QueryUnescape`. The checking pass and the building pass of `unescape`
are one recursion: a `'%'` not followed by two hex digits gives `EscapeError` of the at
most three bytes starting there, `%XX` gives the byte `XX`, `'+'` gives a space. -/
def QueryUnescape : Str → Except Error Str
  | [] => .ok []
  | c :: rest =>
    if c = chPercent then
      match rest with
      | h1 :: h2 :: rest2 =>
        if ishex h1 ∧ ishex h2 then
          match QueryUnescape rest2 with
          | .ok t => .ok (byte (unhex h1 <<< 4 ||| unhex h2) :: t)
          | .error e => .error e
        else .error (.EscapeError [c, h1, h2])
      | _ => .error (.EscapeError (c :: rest))
    else
      match QueryUnescape rest with
      | .ok t => .ok ((if c = chPlus then chSpace else c) :: t)
      | .error e => .error e

/-! ## `strings.Split` -/

/-- Function `strings.Split(s, sep)` for a one-byte separator: the substrings between
the occurrences of `sep`, one more than there are occurrences. -/
def Split (sep : Byte) : Str → List Str
  | [] => [[]]
  | c :: rest =>
    if c = sep then [] :: Split sep rest
    else
      match Split sep rest with
      | p :: ps => (c :: p) :: ps
      | [] => [[c]]

/-! ## `crypto/sha1` and `crypto/hmac` -/

/-- Function `bits.RotateLeft32` on a 32-bit word. -/
def rotl32 (x n : Nat) : Nat := ((x <<< n) ||| (x >>> (32 - n))) % 2 ^ 32

/-- Big-endian 32-bit word of four bytes. -/
def beWord : List Byte → Nat
  | [b0, b1, b2, b3] => b0.val <<< 24 ||| b1.val <<< 16 ||| b2.val <<< 8 ||| b3.val
  | _ => 0

/-- The four bytes of a 32-bit word, most significant first. -/
def wordBytes (w : Nat) : List Byte :=
  [byte (w >>> 24), byte (w >>> 16), byte (w >>> 8), byte w]

/-- The first `n` big-endian words of a block. -/
def chunkWords : Nat → List Byte → List Nat
  | 0, _ => []
  | n + 1, p => beWord (p.take 4) :: chunkWords n (p.drop 4)

/-- Message schedule: `n` further words `w[t] = rotl1 (w[t-3] ^ w[t-8] ^ w[t-14] ^ w[t-16])`;
`recent` holds the last sixteen words, newest first. -/
def expandW : Nat → List Nat → List Nat
  | 0, _ => []
  | n + 1, recent =>
    let t := rotl32
      (recent.getD 2 0 ^^^ recent.getD 7 0 ^^^ recent.getD 13 0 ^^^ recent.getD 15 0) 1
    t :: expandW n (t :: recent.take 15)

/-- The chaining value `h[0..4]` of SHA-1. -/
structure Digest where
  h0 : Nat
  h1 : Nat
  h2 : Nat
  h3 : Nat
  h4 : Nat
  deriving DecidableEq, Repr

/-- Round function of round `i`. -/
def sha1F (i b c d : Nat) : Nat :=
  if i < 20 then (b &&& c) ||| ((b ^^^ 0xFFFFFFFF) &&& d)
  else if i < 40 then b ^^^ c ^^^ d
  else if i < 60 then ((b ||| c) &&& d) ||| (b &&& c)
  else b ^^^ c ^^^ d

/-- Round constant of round `i`. -/
def sha1K (i : Nat) : Nat :=
  if i < 20 then 0x5A827999
  else if i < 40 then 0x6ED9EBA1
  else if i < 60 then 0x8F1BBCDC
  else 0xCA62C1D6

/-- The rounds of `blockGeneric`, one per schedule word, starting at round `i`. -/
def rounds : List Nat → Nat → Digest → Digest
  | [], _, s => s
  | w :: ws, i, ⟨a, b, c, d, e⟩ =>
    let t := (rotl32 a 5 + sha1F i b c d + e + w + sha1K i) % 2 ^ 32
    rounds ws (i + 1) ⟨t, a, rotl32 b 30, c, d⟩

/-- One 64-byte block of `blockGeneric`. -/
def block (dig : Digest) (p : List Byte) : Digest :=
  let w16 := chunkWords 16 p
  let w := w16 ++ expandW 64 w16.reverse
  let r := rounds w 0 dig
  ⟨(dig.h0 + r.h0) % 2 ^ 32, (dig.h1 + r.h1) % 2 ^ 32, (dig.h2 + r.h2) % 2 ^ 32,
   (dig.h3 + r.h3) % 2 ^ 32, (dig.h4 + r.h4) % 2 ^ 32⟩

/-- The first `n` blocks of `p`. -/
def blocks : Nat → Digest → List Byte → Digest
  | 0, dig, _ => dig
  | n + 1, dig, p => blocks n (block dig (p.take 64)) (p.drop 64)

/-- Big-endian 64-bit length field. -/
def lenBytes (n : Nat) : List Byte :=
  [byte (n >>> 56), byte (n >>> 48), byte (n >>> 40), byte (n >>> 32),
   byte (n >>> 24), byte (n >>> 16), byte (n >>> 8), byte n]

/-- Padding of `checkSum`: `0x80`, zeros up to 56 bytes mod 64, the bit length. -/
def sha1Pad (msg : List Byte) : List Byte :=
  let len := msg.length
  let t := if len % 64 < 56 then 56 - len % 64 else 64 + 56 - len % 64
  msg ++ (0x80 : Byte) :: List.replicate (t - 1) 0 ++ lenBytes ((len <<< 3) % 2 ^ 64)

/-- Initial chaining value. -/
def sha1Init : Digest := ⟨0x67452301, 0xEFCDAB89, 0x98BADCFE, 0x10325476, 0xC3D2E1F0⟩

/-- Function `sha1.Sum`: the 20-byte SHA-1 digest. -/
def sha1 (msg : List Byte) : List Byte :=
  let p := sha1Pad msg
  let d := blocks (p.length / 64) sha1Init p
  wordBytes d.h0 ++ wordBytes d.h1 ++ wordBytes d.h2 ++ wordBytes d.h3 ++ wordBytes d.h4

/-- HMAC-SHA1: `h := hmac.New(sha1.New, key); h.Write(msg); h.Sum(nil)`. -/
def hmacSHA1 (key msg : List Byte) : List Byte :=
  let k0 := if key.length > 64 then sha1 key else key
  let k := k0 ++ List.replicate (64 - k0.length) 0
  let ipad := k.map (fun b => byte (b.val ^^^ 0x36))
  let opad := k.map (fun b => byte (b.val ^^^ 0x5c))
  sha1 (opad ++ sha1 (ipad ++ msg))

/-! ## `session.go`: the signed codec -/

/-- Constant `sessionLifeInSec`. -/
def sessionLifeInSec : Int := 7200
/-- Constant `cookieLifeInSec`. -/
def cookieLifeInSec : Int := 7200
/-- Constant `cookieName`. -/
def cookieName : Str := str "session"

/-- Function `signature`; `secret` is `SessionCookieSecret`. -/
def signature (secret sid : Str) : Str := hex (hmacSHA1 secret sid)

/-- Function `encodeSessionID`. -/
def encodeSessionID (secret sid : Str) : Str :=
  let b := EncodeToString sid
  let s := b ++ chDash :: signature secret sid
  QueryEscape s

/-- Function `decodeSessionID`. -/
def decodeSessionID (secret esid : Str) : Except Error Str :=
  match QueryUnescape esid with
  | .error err => .error err
  | .ok esid =>
    let vals := Split chDash esid
    if vals.length ≠ 2 then .error InvalidSessionID
    else
      match DecodeString (vals.getD 0 []) with
      | .error err => .error err
      | .ok bsid =>
        let sid := bsid
        let sig := signature secret sid
        if sig ≠ vals.getD 1 [] then .error InvalidSessionID
        else .ok sid

/-! ## Sessions, cookies, requests -/

/-- An instant (`time.Time`), in nanoseconds counted from the Unix epoch, on an
unbounded scale. -/
abbrev Time := Int

/-- A `time.Duration`, in nanoseconds. -/
abbrev Duration := Int

/-- Constant `time.Second`. -/
def Second : Duration := 1000000000

/-- Constant `time.Hour`. -/
def Hour : Duration := 3600 * Second

/-- A dynamically typed value (`interface{}`); `nil` is the nil interface. -/
inductive Any where
  | nil
  | text (s : Str)
  | int (n : Int)
  | bool (b : Bool)
  deriving DecidableEq, Repr

/-- Type `Session`. `Value` is `none` for the nil map; a map is the list of its
entries, at most one per key. -/
structure Session where
  ID : Str
  ExpiresAt : Time
  Value : Option (List (Str × Any))
  deriving DecidableEq, Repr

/-- Map assignment `m[key] = val`. -/
def mapSet (m : List (Str × Any)) (key : Str) (val : Any) : List (Str × Any) :=
  (key, val) :: m.filter (fun e => e.1 ≠ key)

/-- Map lookup `v, ok := m[key]`. -/
def mapGet (m : List (Str × Any)) (key : Str) : Option Any :=
  (m.find? (fun e => e.1 = key)).map (fun e => e.2)

/-- Method `(*Session).Put`. -/
def Session.Put (s : Session) (key : Str) (val : Any) : Session :=
  let m := match s.Value with
    | none => []
    | some m => m
  { s with Value := some (mapSet m key val) }

/-- Method `(*Session).Get`. -/
def Session.Get (s : Session) (key : Str) : Any :=
  match s.Value with
  | none => Any.nil
  | some m =>
    match mapGet m key with
    | none => Any.nil
    | some v => v

/-- Method `(*Session).Get` with its receiver threaded: the value returned and the
session afterwards. No branch of the body assigns to a field of the receiver. -/
def Session.GetState (s : Session) (key : Str) : Any × Session :=
  match s.Value with
  | none => (Any.nil, s)
  | some m =>
    match mapGet m key with
    | none => (Any.nil, s)
    | some v => (v, s)

/-- Type `http.Cookie`, the fields this package sets. `Expires` is `none` for the zero
time (a cookie read from a request carries none). -/
structure Cookie where
  Name : Str
  Value : Str
  Expires : Option Time
  deriving DecidableEq, Repr

/-- The response under construction: the `Set-Cookie` header lines added so far, in
order, each by what it carries: the name, the value text as written, and the instant
its `Expires` attribute prints (`none` when the line has no such attribute). -/
structure ResponseWriter where
  setCookies : List Cookie
  deriving DecidableEq, Repr

/-- The inbound request: the cookies that `net/http` reads from its `Cookie` header
(`readCookies`), in order, as pairs of name and value. -/
structure Request where
  cookies : List (Str × Str)
  deriving DecidableEq, Repr

/-! ### Cookie text, as `net/http` writes and reads it -/

/-- Function `validCookieValueByte`: `0x20 <= b < 0x7f` except `'"'`, `';'` and
`'\\'`. -/
def validCookieValueByte (b : Byte) : Bool :=
  0x20 ≤ b.val ∧ b.val < 0x7f ∧ b ≠ 34 ∧ b ≠ 59 ∧ b ≠ 92

/-- Function `sanitizeCookieValue`, for a cookie whose `Quoted` field is unset: the
bytes that are not valid in a cookie value are dropped, and a non-empty result that
holds a space or a comma is wrapped in double quotes. -/
def sanitizeCookieValue (v : Str) : Str :=
  let v := v.filter validCookieValueByte
  if v = [] then v
  else if (32 : Byte) ∈ v ∨ (44 : Byte) ∈ v then 34 :: (v ++ [34])
  else v

/-- Function `sanitizeCookieName`: `"\n"` and `"\r"` are replaced by `"-"`. -/
def sanitizeCookieName (n : Str) : Str :=
  n.map (fun b => if b = chLF ∨ b = chCR then chDash else b)

/-- Function `httpguts.IsTokenRune`: ASCII letters, digits and the characters of
"!#$%&'*+-.^_" together with the backquote, `'|'` and `'~'`. -/
def isTokenByte (b : Byte) : Bool :=
  (97 ≤ b.val ∧ b.val ≤ 122) ∨ (65 ≤ b.val ∧ b.val ≤ 90) ∨ (48 ≤ b.val ∧ b.val ≤ 57) ∨
    b = 33 ∨ b = 35 ∨ b = 36 ∨ b = 37 ∨ b = 38 ∨ b = 39 ∨ b = 42 ∨ b = 43 ∨ b = 45 ∨
    b = 46 ∨ b = 94 ∨ b = 95 ∨ b = 96 ∨ b = 124 ∨ b = 126

/-- Function `isCookieNameValid`: a non-empty token. -/
def isCookieNameValid (raw : Str) : Bool :=
  raw ≠ [] ∧ raw.all isTokenByte

/-- Function `parseCookieValue(raw, true)`: surrounding double quotes are stripped, and
the value is refused (`none`) when a byte of it is not valid in a cookie value. -/
def parseCookieValue (raw : Str) : Option Str :=
  let raw :=
    if 1 < raw.length ∧ raw.head? = some 34 ∧ raw.getLast? = some 34 then
      (raw.drop 1).dropLast
    else raw
  if raw.all validCookieValueByte then some raw else none

/-- Function `isASCIISpace` of `net/textproto`: space, tab, line feed, carriage
return. -/
def isASCIISpace (b : Byte) : Bool :=
  b = 32 ∨ b = 9 ∨ b = chLF ∨ b = chCR

/-- Function `textproto.TrimString`: ASCII space is removed at both ends. -/
def TrimString (s : Str) : Str :=
  ((s.dropWhile isASCIISpace).reverse.dropWhile isASCIISpace).reverse

/-- Function `strings.Cut(s, sep)` for a one-byte separator: what stands before the
first `sep` and what stands after it; all of `s` and the empty string when there is
no `sep`. -/
def Cut (sep : Byte) (s : Str) : Str × Str :=
  (s.takeWhile (fun b => b ≠ sep), (s.dropWhile (fun b => b ≠ sep)).drop 1)

/-- Function `readCookies` on the text of one `Cookie` header line: the line is cut at
every `';'`; a part that is empty after trimming, whose name is not a valid cookie name
or whose value is refused is skipped. -/
def readCookieLine (line : Str) : List (Str × Str) :=
  (Split 59 (TrimString line)).filterMap (fun part =>
    let part := TrimString part
    if part = [] then none
    else
      let name := TrimString (Cut 61 part).1
      let val := (Cut 61 part).2
      if isCookieNameValid name then
        match parseCookieValue val with
        | some v => some (name, v)
        | none => none
      else none)

/-- Function `validCookieExpires`: the year of the instant is 1601 or later
(1601-01-01T00:00:00Z is 11644473600 seconds before the Unix epoch). -/
def validCookieExpires (t : Time) : Bool :=
  -11644473600 * Second ≤ t

/-- The instant that the `Expires` attribute of `(*Cookie).String` prints: the
attribute is written only for a valid expiry, in whole seconds (`TimeFormat` has no
fraction of a second). -/
def headerExpires (e : Option Time) : Option Time :=
  match e with
  | none => none
  | some t => if validCookieExpires t then some (t - Int.emod t Second) else none

/-- Function `http.SetCookie`: when `cookie.String()` is not empty, that is when the
name is a valid cookie name, one more `Set-Cookie` line is added; it carries the name,
the value as `sanitizeCookieValue` leaves it, and the expiry in whole seconds. -/
def SetCookie (w : ResponseWriter) (cookie : Cookie) : ResponseWriter :=
  if isCookieNameValid cookie.Name then
    { setCookies := w.setCookies ++
        [{ Name := cookie.Name, Value := sanitizeCookieValue cookie.Value,
           Expires := headerExpires cookie.Expires }] }
  else w

/-- Method `(*Request).AddCookie`: the text
`sanitizeCookieName(c.Name) + "=" + sanitizeCookieValue(c.Value)` is appended to the
`Cookie` header after `"; "`, or becomes the header when there was none; attributes such
as `Expires` are not part of that header. The request then holds the cookies it held
plus what `readCookies` reads from the appended text. -/
def Request.AddCookie (r : Request) (c : Cookie) : Request :=
  { cookies := r.cookies ++
      readCookieLine (sanitizeCookieName c.Name ++ 61 :: sanitizeCookieValue c.Value) }

/-- Method `(*Request).Cookie`: the first cookie of that name, `ErrNoCookie` when
there is none. -/
def Request.Cookie (r : Request) (name : Str) : Except Error Cookie :=
  match r.cookies.find? (fun c => c.1 = name) with
  | some c => .ok { Name := c.1, Value := c.2, Expires := none }
  | none => .error Error.ErrNoCookie

/-! ## `manager.go`: the plain manager -/

/-- Constant `sessionCookieName`. -/
def sessionCookieName : Str := str "session"

set_option linter.dupNamespace false in
/-- Interface `Store`, over the state `σ` of the backend behind it. A call may fail and
may change the backend. -/
structure Store (σ : Type) where
  /-- Method `Store(key, val) error`. -/
  Store : σ → Str → List Byte → Option Error × σ
  /-- Method `Retrieve(key) ([]byte, error)`. -/
  Retrieve : σ → Str → Except Error (List Byte) × σ

/-- Modelled from the spec: the serialization pair `(*Session).Bytes` and `FromBytes`,
which `manager.go` calls and which is defined in neither source file; the spec treats it
as "an opaque encode/decode pair". -/
structure Codec where
  Bytes : Session → Except Error (List Byte)
  FromBytes : List Byte → Except Error Session

/-- Type `Manager`. The injected generator `sessionIDFunc func() string` is the
sequence of its results: `sessionIDFunc k` is what call number `k` returns. -/
structure Manager (σ : Type) where
  store : Store σ
  sessionIDFunc : Nat → Str
  sessionDuration : Duration

/-- What a `Manager` acts on: the backend of its store and the number of calls made
to `sessionIDFunc` so far. -/
structure MState (σ : Type) where
  store : σ
  idCalls : Nat
  deriving DecidableEq

/-- Function `NewManager`. -/
def NewManager {σ : Type} (ss : Store σ) (sessionIDFunc : Nat → Str)
    (sessionDuration : Duration) : Manager σ :=
  { store := ss, sessionIDFunc := sessionIDFunc, sessionDuration := sessionDuration }

/-- Method `(*Manager).Save`. -/
def Manager.Save {σ : Type} (codec : Codec) (m : Manager σ) (st : MState σ)
    (session : Session) : Option Error × MState σ :=
  match codec.Bytes session with
  | .error err => (some err, st)
  | .ok b =>
    let res := m.store.Store st.store session.ID b
    (res.1, { st with store := res.2 })

/-- Method `(*Manager).create`; `now` is the reading of `time.Now()`. -/
def Manager.create {σ : Type} (codec : Codec) (m : Manager σ) (now : Time)
    (st : MState σ) : Except Error Session × MState σ :=
  let id := m.sessionIDFunc st.idCalls
  let st1 : MState σ := { st with idCalls := st.idCalls + 1 }
  let sess : Session := { ID := id, ExpiresAt := now + m.sessionDuration, Value := none }
  match m.Save codec st1 sess with
  | (some err, st2) => (.error err, st2)
  | (none, st2) => (.ok sess, st2)

/-- Method `(*Manager).New`: the result, the state afterwards, the response and the
request afterwards. -/
def Manager.New {σ : Type} (codec : Codec) (m : Manager σ) (now : Time) (st : MState σ)
    (w : ResponseWriter) (r : Request) :
    Except Error Session × MState σ × ResponseWriter × Request :=
  match m.create codec now st with
  | (.error err, st1) => (.error err, st1, w, r)
  | (.ok s, st1) =>
    let cookie : Cookie :=
      { Name := sessionCookieName, Value := s.ID, Expires := some s.ExpiresAt }
    (.ok s, st1, SetCookie w cookie, r.AddCookie cookie)

/-- Method `(*Manager).find`. -/
def Manager.find {σ : Type} (codec : Codec) (m : Manager σ) (st : MState σ) (id : Str) :
    Except Error Session × MState σ :=
  match m.store.Retrieve st.store id with
  | (.error err, s1) => (.error err, { st with store := s1 })
  | (.ok v, s1) => (codec.FromBytes v, { st with store := s1 })

/-- Method `(*Manager).Retrieve`. -/
def Manager.Retrieve {σ : Type} (codec : Codec) (m : Manager σ) (st : MState σ)
    (r : Request) : Except Error Session × MState σ :=
  match r.Cookie sessionCookieName with
  | .error err => (.error err, st)
  | .ok cookie =>
    let sid := cookie.Value
    if sid = [] then (.error EmptyValue, st)
    else m.find codec st sid

/-- Method `(*Manager).Retrieve` called while the clock reads `now`: neither `Retrieve`
nor `find` calls `time.Now()`, so the reading takes no part in the result. -/
def Manager.RetrieveAt {σ : Type} (codec : Codec) (m : Manager σ) (_now : Time)
    (st : MState σ) (r : Request) : Except Error Session × MState σ :=
  m.Retrieve codec st r

/-! ## `session.go`: the signed path -/

/-- Modelled from the spec: the type `StoreManager`, which `session.go` uses and which is
defined in neither source file: `Create(expiresAt) -> Session, error` and
`Find(id) -> Session, error`, over the state `μ` behind the manager. -/
structure StoreManager (μ : Type) where
  Create : μ → Time → Except Error Session × μ
  Find : μ → Str → Except Error Session × μ

/-- Function `New`; `now1` and `now2` are the two readings of `time.Now()`. -/
def New {μ : Type} (secret : Str) (m : StoreManager μ) (now1 now2 : Time) (st : μ)
    (w : ResponseWriter) (r : Request) : Except Error Session × μ × ResponseWriter × Request :=
  let expireAt := now1 + sessionLifeInSec * Second
  match m.Create st expireAt with
  | (.error err, st1) => (.error err, st1, w, r)
  | (.ok s, st1) =>
    let expiration := now2 + cookieLifeInSec * Second
    let cookie : Cookie :=
      { Name := cookieName, Value := encodeSessionID secret s.ID, Expires := some expiration }
    (.ok s, st1, SetCookie w cookie, r.AddCookie cookie)

/-- Function `Find`. -/
def Find {μ : Type} (secret : Str) (m : StoreManager μ) (st : μ) (r : Request) :
    Except Error Session × μ :=
  match r.Cookie cookieName with
  | .error err => (.error err, st)
  | .ok cookie =>
    match decodeSessionID secret cookie.Value with
    | .error err => (.error err, st)
    | .ok sid => m.Find st sid

/-! ## Instances used in the examples -/

/-- An in-memory `Store`: a list of entries, newest first; `Store` replaces the entry
of the key, `Retrieve` of an absent key fails. -/
def memStore : Store (List (Str × List Byte)) where
  Store := fun st key val => (none, (key, val) :: st.filter (fun e => e.1 ≠ key))
  Retrieve := fun st key =>
    match st.find? (fun e => e.1 = key) with
    | some e => (.ok e.2, st)
    | none => (.error (Error.External (str "not found")), st)

/-- A `Store` whose backend refuses every write and holds nothing. -/
def refusingStore : Store Unit where
  Store := fun st _ _ => (some (Error.External (str "store unavailable")), st)
  Retrieve := fun st _ => (.error (Error.External (str "not found")), st)

/-- A serialization pair for the examples: the eight big-endian bytes of `ExpiresAt`
followed by the ID; sessions with a `Value` map or an `ExpiresAt` outside
`0 .. 2^64 - 1` are refused. -/
def sampleCodec : Codec where
  Bytes := fun s =>
    if s.Value = none ∧ 0 ≤ s.ExpiresAt ∧ s.ExpiresAt < 2 ^ 64 then
      .ok (lenBytes s.ExpiresAt.toNat ++ s.ID)
    else .error (Error.External (str "unsupported session"))
  FromBytes := fun b =>
    if 8 ≤ b.length then
      .ok { ID := b.drop 8,
            ExpiresAt := Int.ofNat ((b.take 8).foldl (fun acc x => acc * 256 + x.val) 0),
            Value := none }
    else .error (Error.External (str "short input"))

/-- An in-memory `StoreManager`: the sessions created so far, newest first; `Create`
names the new session after the number of sessions. -/
def memStoreManager : StoreManager (List Session) where
  Create := fun st expiresAt =>
    let s : Session := { ID := str "s" ++ List.replicate st.length 49, ExpiresAt := expiresAt,
                         Value := none }
    (.ok s, s :: st)
  Find := fun st id =>
    match st.find? (fun s => s.ID = id) with
    | some s => (.ok s, st)
    | none => (.error (Error.External (str "not found")), st)

/-! ## Predicates used in the statements -/

/-- Lower-case hexadecimal digits `0-9a-f`. -/
def lowerHexDigit (c : Byte) : Bool :=
  (48 ≤ c.val ∧ c.val ≤ 57) ∨ (97 ≤ c.val ∧ c.val ≤ 102)

/-- Inverse of `hex`: pairs of hexadecimal digits back to bytes. -/
def unhexStr : Str → List Byte
  | d1 :: d2 :: rest => byte (unhex d1 <<< 4 ||| unhex d2) :: unhexStr rest
  | _ => []

/-- The part of `decodeSessionID` after percent-decoding, applied to the decoded
string. -/
def checkParts (secret esid : Str) : Except Error Str :=
  let vals := Split chDash esid
  if vals.length ≠ 2 then .error InvalidSessionID
  else
    match DecodeString (vals.getD 0 []) with
    | .error err => .error err
    | .ok bsid =>
      if signature secret bsid ≠ vals.getD 1 [] then .error InvalidSessionID
      else .ok bsid

/-! # Theorems -/

/-! ## Facts about single bytes -/

set_option maxRecDepth 100000 in
theorem lowerHexDigit_facts : ∀ c : Byte, lowerHexDigit c = true →
    c ≠ chPercent ∧ c ≠ chPlus ∧ c ≠ chDash ∧ c ≠ chSpace ∧ shouldEscape c = false ∧
      ishex c = true := by
  decide

set_option maxRecDepth 100000 in
theorem hex_digits_lower : ∀ b : Byte,
    lowerHexDigit (ldigits.getD (b.val >>> 4) 0) = true ∧
      lowerHexDigit (ldigits.getD (b.val &&& 0xF) 0) = true := by
  decide

set_option maxRecDepth 100000 in
theorem unhex_upperhex : ∀ c : Byte,
    ishex (upperhex.getD (c.val >>> 4) 0) = true ∧
    ishex (upperhex.getD (c.val &&& 15) 0) = true ∧
    byte (unhex (upperhex.getD (c.val >>> 4) 0) <<< 4 |||
      unhex (upperhex.getD (c.val &&& 15) 0)) = c := by
  decide

set_option maxRecDepth 100000 in
theorem unhex_ldigits : ∀ c : Byte,
    byte (unhex (ldigits.getD (c.val >>> 4) 0) <<< 4 |||
      unhex (ldigits.getD (c.val &&& 0xF) 0)) = c := by
  decide

set_option maxRecDepth 100000 in
theorem upperhex_ne_dash : ∀ c : Byte,
    upperhex.getD (c.val >>> 4) 0 ≠ chDash ∧ upperhex.getD (c.val &&& 15) 0 ≠ chDash := by
  decide

set_option maxRecDepth 100000 in
theorem encodeChar_facts : ∀ i : Fin 64,
    decodeMap (encodeChar i.val) = i.val ∧ encodeChar i.val ≠ chDash := by
  decide

/-! ## `hex` -/

theorem hex_length (bs : List Byte) : (hex bs).length = 2 * bs.length := by
  induction bs with
  | nil => rfl
  | cons b bs ih => simp [hex, ih]; omega

theorem hex_lower (bs : List Byte) : ∀ c ∈ hex bs, lowerHexDigit c = true := by
  induction bs with
  | nil => simp [hex]
  | cons b bs ih =>
    intro c hc
    simp only [hex, List.mem_cons] at hc
    rcases hc with h | h | h
    · rw [h]; exact (hex_digits_lower b).1
    · rw [h]; exact (hex_digits_lower b).2
    · exact ih c h

theorem unhexStr_hex (bs : List Byte) : unhexStr (hex bs) = bs := by
  induction bs with
  | nil => rfl
  | cons b bs ih => simp only [hex, unhexStr, ih, unhex_ldigits b]

theorem hex_injective {a b : List Byte} (h : hex a = hex b) : a = b := by
  have := congrArg unhexStr h
  simpa [unhexStr_hex] using this

/-! ## `strings.Split` -/

theorem Split_ne_nil (sep : Byte) (s : Str) : Split sep s ≠ [] := by
  induction s with
  | nil => simp [Split]
  | cons c rest ih =>
    simp only [Split]
    split
    · simp
    · split <;> simp

theorem Split_cons_ne (sep c : Byte) (rest : Str) (h : c ≠ sep) :
    Split sep (c :: rest) =
      (c :: (Split sep rest).headD []) :: (Split sep rest).tail := by
  have hne := Split_ne_nil sep rest
  simp only [Split, if_neg h]
  cases hs : Split sep rest with
  | nil => exact absurd hs hne
  | cons p ps => simp

theorem Split_length (sep : Byte) (s : Str) : (Split sep s).length = s.count sep + 1 := by
  induction s with
  | nil => simp [Split]
  | cons c rest ih =>
    by_cases h : c = sep
    · subst h; simp [Split, ih]
    · rw [Split_cons_ne sep c rest h]
      have hne := Split_ne_nil sep rest
      cases hs : Split sep rest with
      | nil => exact absurd hs hne
      | cons p ps =>
        rw [hs] at ih
        simp only [List.length_cons] at ih
        simp [List.count_cons, h, ← ih]

theorem Split_of_not_mem (sep : Byte) (s : Str) (h : sep ∉ s) : Split sep s = [s] := by
  induction s with
  | nil => simp [Split]
  | cons c rest ih =>
    simp only [List.mem_cons, not_or] at h
    rw [Split_cons_ne sep c rest (fun e => h.1 e.symm), ih h.2]
    simp

theorem Split_append_sep (sep : Byte) (x t : Str) :
    Split sep (x ++ sep :: t) = Split sep x ++ Split sep t := by
  induction x with
  | nil => simp [Split]
  | cons c rest ih =>
    by_cases h : c = sep
    · subst h; simp [Split, ih]
    · rw [List.cons_append, Split_cons_ne sep c _ h, Split_cons_ne sep c _ h, ih]
      have hne := Split_ne_nil sep rest
      cases hs : Split sep rest with
      | nil => exact absurd hs hne
      | cons p ps => simp

/-- A string with exactly two parts is the first part, the separator, the second part,
and neither part holds the separator. -/
theorem Split_eq_pair (sep : Byte) (s a b : Str) (h : Split sep s = [a, b]) :
    s = a ++ sep :: b ∧ sep ∉ a ∧ sep ∉ b := by
  induction s generalizing a with
  | nil => simp [Split] at h
  | cons c rest ih =>
    by_cases hc : c = sep
    · subst hc
      simp only [Split, if_true, List.cons.injEq] at h
      obtain ⟨ha, hb⟩ := h
      subst ha
      have hcnt := Split_length c rest
      rw [hb] at hcnt
      simp only [List.length_singleton] at hcnt
      have hnm : c ∉ rest := List.count_eq_zero.mp (by omega)
      rw [Split_of_not_mem c rest hnm] at hb
      simp only [List.cons.injEq, and_true] at hb
      subst hb
      simp [hnm]
    · rw [Split_cons_ne sep c rest hc] at h
      have hne := Split_ne_nil sep rest
      cases hs : Split sep rest with
      | nil => exact absurd hs hne
      | cons p ps =>
        rw [hs] at h
        simp only [List.headD_cons, List.tail_cons, List.cons.injEq] at h
        obtain ⟨ha, hb⟩ := h
        subst ha hb
        obtain ⟨h1, h2, h3⟩ := ih p hs
        refine ⟨by rw [h1]; simp, ?_, h3⟩
        simp only [List.mem_cons, not_or]
        exact ⟨fun e => hc e.symm, h2⟩

/-! ## `url.QueryEscape` and `url.QueryUnescape` -/

set_option maxRecDepth 100000 in
theorem shouldEscape_false_facts : ∀ c : Byte, shouldEscape c = false →
    c ≠ chPercent ∧ c ≠ chPlus := by
  decide

theorem QueryUnescape_cons_literal (c : Byte) (rest : Str) (h1 : c ≠ chPercent)
    (h2 : c ≠ chPlus) :
    QueryUnescape (c :: rest) = (QueryUnescape rest).map (fun t => c :: t) := by
  rw [QueryUnescape.eq_def]
  simp only [if_neg h1, if_neg h2]
  cases QueryUnescape rest <;> rfl

theorem QueryUnescape_plus (rest : Str) :
    QueryUnescape (chPlus :: rest) = (QueryUnescape rest).map (fun t => chSpace :: t) := by
  rw [QueryUnescape.eq_def]
  have h1 : chPlus ≠ chPercent := by decide
  simp only [if_neg h1, if_true]
  cases QueryUnescape rest <;> rfl

theorem QueryUnescape_escape (h1 h2 : Byte) (rest : Str) (e1 : ishex h1 = true)
    (e2 : ishex h2 = true) :
    QueryUnescape (chPercent :: h1 :: h2 :: rest) =
      (QueryUnescape rest).map (fun t => byte (unhex h1 <<< 4 ||| unhex h2) :: t) := by
  rw [QueryUnescape.eq_def]
  simp only [if_true, e1, e2, and_self]
  cases QueryUnescape rest <;> rfl

theorem QueryUnescape_append_literal (pre r : Str)
    (h : ∀ c ∈ pre, c ≠ chPercent ∧ c ≠ chPlus) :
    QueryUnescape (pre ++ r) = (QueryUnescape r).map (fun t => pre ++ t) := by
  induction pre with
  | nil => cases h : QueryUnescape r <;> simp [Except.map, h]
  | cons c rest ih =>
    have hc := h c (List.mem_cons_self _ _)
    rw [List.cons_append, QueryUnescape_cons_literal c _ hc.1 hc.2,
      ih (fun d hd => h d (List.mem_cons_of_mem _ hd))]
    cases QueryUnescape r <;> rfl

theorem QueryUnescape_literal (s : Str) (h : ∀ c ∈ s, c ≠ chPercent ∧ c ≠ chPlus) :
    QueryUnescape s = .ok s := by
  have := QueryUnescape_append_literal s [] h
  simpa [QueryUnescape, Except.map] using this

/-- Percent-decoding undoes percent-encoding, also in front of further input. -/
theorem QueryUnescape_QueryEscape_append (s t : Str) :
    QueryUnescape (QueryEscape s ++ t) = (QueryUnescape t).map (fun y => s ++ y) := by
  induction s with
  | nil => cases h : QueryUnescape t <;> simp [Except.map, h, QueryEscape]
  | cons c rest ih =>
    rw [QueryEscape]
    by_cases hs : shouldEscape c = true
    · simp only [hs, if_true]
      by_cases hsp : c = chSpace
      · simp only [hsp, if_true, List.cons_append]
        rw [QueryUnescape_plus, ih]
        cases QueryUnescape t <;> rfl
      · simp only [if_neg hsp, List.cons_append]
        obtain ⟨e1, e2, e3⟩ := unhex_upperhex c
        rw [QueryUnescape_escape _ _ _ e1 e2, ih, e3]
        cases QueryUnescape t <;> rfl
    · have hs2 : shouldEscape c = false := by simpa using hs
      simp only [hs2, Bool.false_eq_true, if_false, List.cons_append]
      obtain ⟨h1, h2⟩ := shouldEscape_false_facts c hs2
      rw [QueryUnescape_cons_literal c _ h1 h2, ih]
      cases QueryUnescape t <;> rfl

theorem QueryUnescape_QueryEscape (s : Str) : QueryUnescape (QueryEscape s) = .ok s := by
  have := QueryUnescape_QueryEscape_append s []
  simpa [QueryUnescape, Except.map] using this

theorem QueryEscape_append (a b : Str) :
    QueryEscape (a ++ b) = QueryEscape a ++ QueryEscape b := by
  induction a with
  | nil => rfl
  | cons c rest ih =>
    simp only [List.cons_append, QueryEscape]
    split
    · split <;> simp [ih]
    · simp [ih]

theorem QueryEscape_unreserved (s : Str) (h : ∀ c ∈ s, shouldEscape c = false) :
    QueryEscape s = s := by
  induction s with
  | nil => rfl
  | cons c rest ih =>
    have hc := h c (List.mem_cons_self _ _)
    simp only [QueryEscape, hc, Bool.false_eq_true, if_false,
      ih (fun d hd => h d (List.mem_cons_of_mem _ hd))]

theorem dash_not_mem_QueryEscape (s : Str) (h : chDash ∉ s) : chDash ∉ QueryEscape s := by
  induction s with
  | nil => simp [QueryEscape]
  | cons c rest ih =>
    simp only [List.mem_cons, not_or] at h
    have ih2 := ih h.2
    rw [QueryEscape]
    split
    · split
      · simp only [List.mem_cons, not_or]
        exact ⟨by decide, ih2⟩
      · simp only [List.mem_cons, not_or]
        exact ⟨by decide, fun e => (upperhex_ne_dash c).1 e.symm,
          fun e => (upperhex_ne_dash c).2 e.symm, ih2⟩
    · simp only [List.mem_cons, not_or]
      exact ⟨h.1, ih2⟩

/-- Percent-decoding cannot reach across a `'-'`: whatever stands in front of a dash
that is followed by literal bytes, a successful decoding keeps the dash and what
follows it. -/
theorem QueryUnescape_before_dash (t : Str) (ht : ∀ c ∈ t, c ≠ chPercent ∧ c ≠ chPlus) :
    ∀ (n : Nat) (u y : Str), u.length ≤ n → QueryUnescape (u ++ chDash :: t) = .ok y →
      ∃ x, QueryUnescape u = .ok x ∧ y = x ++ chDash :: t := by
  have hdash : QueryUnescape (chDash :: t) = .ok (chDash :: t) :=
    QueryUnescape_literal _ (by
      intro c hc
      rcases List.mem_cons.mp hc with h | h
      · subst h; exact ⟨by decide, by decide⟩
      · exact ht c h)
  intro n
  induction n with
  | zero =>
    intro u y hu h
    have : u = [] := List.length_eq_zero.mp (by omega)
    subst this
    refine ⟨[], rfl, ?_⟩
    rw [List.nil_append, hdash] at h
    simpa using h.symm
  | succ n ih =>
    intro u y hu h
    match u, hu, h with
    | [], _, h =>
      refine ⟨[], rfl, ?_⟩
      rw [List.nil_append, hdash] at h
      simpa using h.symm
    | c :: rest, hu, h =>
      by_cases hc : c = chPercent
      · subst hc
        match rest, hu, h with
        | [], _, h =>
          exfalso
          cases t with
          | nil => simp [QueryUnescape] at h
          | cons a t2 =>
            have : ishex chDash = false := by decide
            simp [QueryUnescape, this] at h
        | [h1], _, h =>
          exfalso
          have : ishex chDash = false := by decide
          simp [QueryUnescape, this] at h
        | h1 :: h2 :: rest2, hu, h =>
          by_cases hx : ishex h1 = true ∧ ishex h2 = true
          · simp only [List.cons_append] at h
            rw [QueryUnescape_escape _ _ _ hx.1 hx.2] at h
            rw [QueryUnescape_escape _ _ _ hx.1 hx.2]
            cases hr : QueryUnescape (rest2 ++ chDash :: t) with
            | error e => rw [hr] at h; simp [Except.map] at h
            | ok y2 =>
              rw [hr] at h
              simp only [Except.map, Except.ok.injEq] at h
              obtain ⟨x, hx1, hx2⟩ := ih rest2 y2 (by simp at hu; omega) hr
              refine ⟨byte (unhex h1 <<< 4 ||| unhex h2) :: x, ?_, ?_⟩
              · rw [hx1]; rfl
              · rw [← h, hx2]; rfl
          · exfalso
            simp only [List.cons_append] at h
            rw [QueryUnescape.eq_def] at h
            simp [hx] at h
      · by_cases hp : c = chPlus
        · subst hp
          simp only [List.cons_append] at h
          rw [QueryUnescape_plus] at h
          rw [QueryUnescape_plus]
          cases hr : QueryUnescape (rest ++ chDash :: t) with
          | error e => rw [hr] at h; simp [Except.map] at h
          | ok y2 =>
            rw [hr] at h
            simp only [Except.map, Except.ok.injEq] at h
            obtain ⟨x, hx1, hx2⟩ := ih rest y2 (by simp at hu; omega) hr
            refine ⟨chSpace :: x, ?_, ?_⟩
            · rw [hx1]; rfl
            · rw [← h, hx2]; rfl
        · simp only [List.cons_append] at h
          rw [QueryUnescape_cons_literal c _ hc hp] at h
          rw [QueryUnescape_cons_literal c _ hc hp]
          cases hr : QueryUnescape (rest ++ chDash :: t) with
          | error e => rw [hr] at h; simp [Except.map] at h
          | ok y2 =>
            rw [hr] at h
            simp only [Except.map, Except.ok.injEq] at h
            obtain ⟨x, hx1, hx2⟩ := ih rest y2 (by simp at hu; omega) hr
            refine ⟨c :: x, ?_, ?_⟩
            · rw [hx1]; rfl
            · rw [← h, hx2]; rfl

/-! ## `encoding/base64` -/

theorem and63 (x : Nat) : x &&& 0x3F = x % 64 := Nat.and_pow_two_sub_one_eq_mod x 6

theorem or_eq_add (i k y : Nat) (hy : y < 2 ^ i) : k * 2 ^ i ||| y = k * 2 ^ i + y := by
  rw [Nat.mul_comm]
  exact (Nat.mul_add_lt_is_or hy k).symm

theorem pack3 (a b c : Nat) (_ha : a < 256) (hb : b < 256) (hc : c < 256) :
    a <<< 16 ||| b <<< 8 ||| c = a * 65536 + b * 256 + c := by
  rw [Nat.shiftLeft_eq, Nat.shiftLeft_eq, or_eq_add 16 a _ (by omega)]
  have e : a * 2 ^ 16 + b * 2 ^ 8 = (a * 256 + b) * 2 ^ 8 := by omega
  rw [e, or_eq_add 8 _ c (by omega)]
  omega

theorem pack4 (s0 s1 s2 s3 : Nat) (_h0 : s0 < 64) (h1 : s1 < 64) (h2 : s2 < 64)
    (h3 : s3 < 64) :
    s0 <<< 18 ||| s1 <<< 12 ||| s2 <<< 6 ||| s3 =
      s0 * 262144 + s1 * 4096 + s2 * 64 + s3 := by
  rw [Nat.shiftLeft_eq, Nat.shiftLeft_eq, Nat.shiftLeft_eq, or_eq_add 18 s0 _ (by omega)]
  have e : s0 * 2 ^ 18 + s1 * 2 ^ 12 = (s0 * 64 + s1) * 2 ^ 12 := by omega
  rw [e, or_eq_add 12 _ _ (by omega)]
  have e2 : (s0 * 64 + s1) * 2 ^ 12 + s2 * 2 ^ 6 = (s0 * 4096 + s1 * 64 + s2) * 2 ^ 6 := by
    omega
  rw [e2, or_eq_add 6 _ _ (by omega)]
  omega

theorem byte_eq (n : Nat) (b : Byte) (h : n % 256 = b.val) : byte n = b :=
  Fin.ext h

/-- Three bytes survive the trip through their four sextets. -/
theorem quantumBytes_full (a b c : Byte) :
    quantumBytes
      [(a.val <<< 16 ||| b.val <<< 8 ||| c.val) >>> 18 &&& 0x3F,
       (a.val <<< 16 ||| b.val <<< 8 ||| c.val) >>> 12 &&& 0x3F,
       (a.val <<< 16 ||| b.val <<< 8 ||| c.val) >>> 6 &&& 0x3F,
       (a.val <<< 16 ||| b.val <<< 8 ||| c.val) &&& 0x3F] 4 = [a, b, c] := by
  have ha := a.isLt
  have hb := b.isLt
  have hc := c.isLt
  rw [pack3 _ _ _ ha hb hc]
  simp only [and63, Nat.shiftRight_eq_div_pow]
  unfold quantumBytes
  simp only [List.getD_cons_zero, List.getD_cons_succ]
  rw [pack4 _ _ _ _ (Nat.mod_lt _ (by decide)) (Nat.mod_lt _ (by decide))
    (Nat.mod_lt _ (by decide)) (Nat.mod_lt _ (by decide))]
  simp only [Nat.shiftRight_eq_div_pow, List.take, Nat.reduceSub]
  have e1 : byte (((a.val * 65536 + b.val * 256 + c.val) / 2 ^ 18 % 64 * 262144 +
      (a.val * 65536 + b.val * 256 + c.val) / 2 ^ 12 % 64 * 4096 +
      (a.val * 65536 + b.val * 256 + c.val) / 2 ^ 6 % 64 * 64 +
      (a.val * 65536 + b.val * 256 + c.val) % 64) / 2 ^ 16) = a :=
    byte_eq _ _ (by omega)
  have e2 : byte (((a.val * 65536 + b.val * 256 + c.val) / 2 ^ 18 % 64 * 262144 +
      (a.val * 65536 + b.val * 256 + c.val) / 2 ^ 12 % 64 * 4096 +
      (a.val * 65536 + b.val * 256 + c.val) / 2 ^ 6 % 64 * 64 +
      (a.val * 65536 + b.val * 256 + c.val) % 64) / 2 ^ 8) = b :=
    byte_eq _ _ (by omega)
  have e3 : byte (((a.val * 65536 + b.val * 256 + c.val) / 2 ^ 18 % 64 * 262144 +
      (a.val * 65536 + b.val * 256 + c.val) / 2 ^ 12 % 64 * 4096 +
      (a.val * 65536 + b.val * 256 + c.val) / 2 ^ 6 % 64 * 64 +
      (a.val * 65536 + b.val * 256 + c.val) % 64) / 2 ^ 0) = c :=
    byte_eq _ _ (by omega)
  rw [e1, e2, e3]

theorem quantumBytes_two (a b : Byte) :
    quantumBytes
      [(a.val <<< 16 ||| b.val <<< 8) >>> 18 &&& 0x3F,
       (a.val <<< 16 ||| b.val <<< 8) >>> 12 &&& 0x3F,
       (a.val <<< 16 ||| b.val <<< 8) >>> 6 &&& 0x3F] 3 = [a, b] := by
  have ha := a.isLt
  have hb := b.isLt
  have hp : a.val <<< 16 ||| b.val <<< 8 = a.val * 65536 + b.val * 256 := by
    rw [Nat.shiftLeft_eq, Nat.shiftLeft_eq, or_eq_add 16 _ _ (by omega)]
    omega
  rw [hp]
  simp only [and63, Nat.shiftRight_eq_div_pow]
  unfold quantumBytes
  simp only [List.getD_cons_zero, List.getD_cons_succ, List.getD_nil]
  rw [pack4 _ _ _ _ (Nat.mod_lt _ (by decide)) (Nat.mod_lt _ (by decide))
    (Nat.mod_lt _ (by decide)) (by decide)]
  simp only [Nat.shiftRight_eq_div_pow, List.take, Nat.reduceSub]
  have e1 : byte (((a.val * 65536 + b.val * 256) / 2 ^ 18 % 64 * 262144 +
      (a.val * 65536 + b.val * 256) / 2 ^ 12 % 64 * 4096 +
      (a.val * 65536 + b.val * 256) / 2 ^ 6 % 64 * 64 + 0) / 2 ^ 16) = a :=
    byte_eq _ _ (by omega)
  have e2 : byte (((a.val * 65536 + b.val * 256) / 2 ^ 18 % 64 * 262144 +
      (a.val * 65536 + b.val * 256) / 2 ^ 12 % 64 * 4096 +
      (a.val * 65536 + b.val * 256) / 2 ^ 6 % 64 * 64 + 0) / 2 ^ 8) = b :=
    byte_eq _ _ (by omega)
  rw [e1, e2]

theorem quantumBytes_one (a : Byte) :
    quantumBytes [(a.val <<< 16) >>> 18 &&& 0x3F, (a.val <<< 16) >>> 12 &&& 0x3F] 2 = [a] := by
  have ha := a.isLt
  simp only [and63, Nat.shiftRight_eq_div_pow, Nat.shiftLeft_eq]
  unfold quantumBytes
  simp only [List.getD_cons_zero, List.getD_cons_succ, List.getD_nil]
  rw [pack4 _ _ _ _ (Nat.mod_lt _ (by decide)) (Nat.mod_lt _ (by decide))
    (by decide) (by decide)]
  simp only [Nat.shiftRight_eq_div_pow, List.take, Nat.reduceSub]
  have e1 : byte ((a.val * 2 ^ 16 / 2 ^ 18 % 64 * 262144 +
      a.val * 2 ^ 16 / 2 ^ 12 % 64 * 4096 + 0 * 64 + 0) / 2 ^ 16) = a :=
    byte_eq _ _ (by omega)
  rw [e1]

theorem encodeChar_sextet (x : Nat) :
    decodeMap (encodeChar (x &&& 0x3F)) = x &&& 0x3F ∧ encodeChar (x &&& 0x3F) ≠ chDash ∧
      x &&& 0x3F ≠ 0xff := by
  have hlt : x &&& 0x3F < 64 := by rw [and63]; omega
  have h := encodeChar_facts ⟨x &&& 0x3F, hlt⟩
  exact ⟨h.1, h.2, by omega⟩

theorem decodeLoop_sextet (j : Nat) (dbuf : List Nat) (out rest : List Byte) (x si : Nat)
    (hj : j ≠ 3) :
    decodeLoop j dbuf out (encodeChar (x &&& 0x3F) :: rest) si =
      decodeLoop (j + 1) (dbuf ++ [x &&& 0x3F]) out rest (si + 1) := by
  obtain ⟨h1, _, h3⟩ := encodeChar_sextet x
  rw [decodeLoop]
  simp only [h1, ne_eq, h3, not_false_eq_true, if_true, if_neg hj]

theorem decodeLoop_sextet_last (dbuf : List Nat) (out rest : List Byte) (x si : Nat) :
    decodeLoop 3 dbuf out (encodeChar (x &&& 0x3F) :: rest) si =
      decodeLoop 0 [] (out ++ quantumBytes (dbuf ++ [x &&& 0x3F]) 4) rest (si + 1) := by
  obtain ⟨h1, _, h3⟩ := encodeChar_sextet x
  rw [decodeLoop]
  simp only [h1, ne_eq, h3, not_false_eq_true, if_true]

/-- Decoding what `EncodeToString` produced gives the bytes back, after any output
already written and at any offset. -/
theorem decodeLoop_EncodeToString (bs out : List Byte) (si : Nat) :
    decodeLoop 0 [] out (EncodeToString bs) si = .ok (out ++ bs) := by
  induction bs using EncodeToString.induct generalizing out si with
  | case1 b0 b1 b2 rest ih =>
    rw [EncodeToString]
    rw [decodeLoop_sextet _ _ _ _ _ _ (by decide), decodeLoop_sextet _ _ _ _ _ _ (by decide),
      decodeLoop_sextet _ _ _ _ _ _ (by decide), decodeLoop_sextet_last]
    simp only [List.nil_append, List.cons_append]
    rw [quantumBytes_full, ih]
    simp
  | case2 b0 b1 =>
    rw [EncodeToString]
    rw [decodeLoop_sextet _ _ _ _ _ _ (by decide), decodeLoop_sextet _ _ _ _ _ _ (by decide),
      decodeLoop_sextet _ _ _ _ _ _ (by decide)]
    simp only [List.nil_append, List.cons_append]
    rw [decodeLoop]
    have hp : decodeMap chPad = 0xff := by decide
    simp only [hp, ne_eq, not_true_eq_false, if_false]
    have h1 : ¬ (chPad = chLF ∨ chPad = chCR) := by decide
    simp only [if_neg h1, if_true]
    simp [decodePadding, skipNewlines, quantumBytes_two]
  | case3 b0 =>
    rw [EncodeToString]
    rw [decodeLoop_sextet _ _ _ _ _ _ (by decide), decodeLoop_sextet _ _ _ _ _ _ (by decide)]
    simp only [List.nil_append, List.cons_append]
    rw [decodeLoop]
    have hp : decodeMap chPad = 0xff := by decide
    simp only [hp, ne_eq, not_true_eq_false, if_false]
    have h1 : ¬ (chPad = chLF ∨ chPad = chCR) := by decide
    simp only [if_neg h1, if_true]
    simp [decodePadding, skipNewlines, quantumBytes_one, if_neg h1]
  | case4 => simp [EncodeToString, decodeLoop]

theorem DecodeString_EncodeToString (bs : List Byte) :
    DecodeString (EncodeToString bs) = .ok bs := by
  simpa [DecodeString] using decodeLoop_EncodeToString bs [] 0

theorem dash_not_mem_EncodeToString (bs : List Byte) : chDash ∉ EncodeToString bs := by
  induction bs using EncodeToString.induct with
  | case1 b0 b1 b2 rest ih =>
    rw [EncodeToString]
    simp only [List.mem_cons, not_or]
    exact ⟨fun e => (encodeChar_sextet _).2.1 e.symm, fun e => (encodeChar_sextet _).2.1 e.symm,
      fun e => (encodeChar_sextet _).2.1 e.symm, fun e => (encodeChar_sextet _).2.1 e.symm, ih⟩
  | case2 b0 b1 =>
    rw [EncodeToString]
    simp only [List.mem_cons, not_or, List.mem_nil_iff, not_false_eq_true, and_true]
    exact ⟨fun e => (encodeChar_sextet _).2.1 e.symm, fun e => (encodeChar_sextet _).2.1 e.symm,
      fun e => (encodeChar_sextet _).2.1 e.symm, by decide⟩
  | case3 b0 =>
    rw [EncodeToString]
    simp only [List.mem_cons, not_or, List.mem_nil_iff, not_false_eq_true, and_true]
    exact ⟨fun e => (encodeChar_sextet _).2.1 e.symm, fun e => (encodeChar_sextet _).2.1 e.symm,
      by decide, by decide⟩
  | case4 => simp [EncodeToString]

/-! ## The signed codec: structure of `encodeSessionID` and `decodeSessionID` -/

theorem sha1_length (msg : List Byte) : (sha1 msg).length = 20 := by
  simp [sha1, wordBytes]

theorem hmacSHA1_length (key msg : List Byte) : (hmacSHA1 key msg).length = 20 := by
  simp [hmacSHA1, sha1_length]

theorem signature_length (secret sid : Str) : (signature secret sid).length = 40 := by
  simp [signature, hex_length, hmacSHA1_length]

theorem signature_lower (secret sid : Str) :
    ∀ c ∈ signature secret sid, lowerHexDigit c = true :=
  hex_lower _

theorem lower_literal (s : Str) (h : ∀ c ∈ s, lowerHexDigit c = true) :
    ∀ c ∈ s, c ≠ chPercent ∧ c ≠ chPlus := fun c hc =>
  ⟨(lowerHexDigit_facts c (h c hc)).1, (lowerHexDigit_facts c (h c hc)).2.1⟩

theorem lower_no_dash (s : Str) (h : ∀ c ∈ s, lowerHexDigit c = true) : chDash ∉ s :=
  fun hc => (lowerHexDigit_facts _ (h _ hc)).2.2.1 rfl

theorem decodeSessionID_eq (secret c : Str) :
    decodeSessionID secret c =
      match QueryUnescape c with
      | .error e => .error e
      | .ok u => checkParts secret u := by
  unfold decodeSessionID checkParts
  cases QueryUnescape c <;> rfl

/-- The cookie value is the escaped base64 body, a dash, and the signature. -/
theorem encodeSessionID_eq (secret sid : Str) :
    encodeSessionID secret sid =
      QueryEscape (EncodeToString sid) ++ chDash :: signature secret sid := by
  unfold encodeSessionID
  simp only
  rw [QueryEscape_append]
  congr 1
  apply QueryEscape_unreserved
  intro c hc
  rcases List.mem_cons.mp hc with h | h
  · subst h; decide
  · exact (lowerHexDigit_facts c (signature_lower _ _ c h)).2.2.2.2.1

/-- After the genuine base64 body and a dash, only the signature of the ID is
accepted. -/
theorem checkParts_body (secret sid x : Str) :
    checkParts secret (EncodeToString sid ++ chDash :: x) =
      if x = signature secret sid then .ok sid else .error InvalidSessionID := by
  unfold checkParts
  simp only
  rw [Split_append_sep, Split_of_not_mem _ _ (dash_not_mem_EncodeToString sid)]
  by_cases hd : chDash ∈ x
  · have hlen : (Split chDash x).length ≠ 1 := by
      rw [Split_length]
      have := List.count_pos_iff.mpr hd
      omega
    have hne : x ≠ signature secret sid := by
      intro e
      rw [e] at hd
      exact lower_no_dash _ (signature_lower _ _) hd
    have : ([EncodeToString sid] ++ Split chDash x).length ≠ 2 := by
      simp only [List.length_append, List.length_singleton]
      omega
    rw [if_pos this, if_neg hne]
  · rw [Split_of_not_mem _ _ hd]
    simp only [List.singleton_append, List.length_cons, List.length_nil, ne_eq,
      not_true_eq_false, if_false, List.getD_cons_zero, List.getD_cons_succ,
      DecodeString_EncodeToString]
    by_cases hx : x = signature secret sid
    · simp [hx]
    · rw [if_neg hx, if_pos (fun e => hx e.symm)]

/-- Decoding a cookie value that starts with the genuine escaped body and a dash. -/
theorem decodeSessionID_after_body (secret sid y : Str) :
    decodeSessionID secret (QueryEscape (EncodeToString sid) ++ chDash :: y) =
      match QueryUnescape y with
      | .error e => .error e
      | .ok x => if x = signature secret sid then .ok sid else .error InvalidSessionID := by
  rw [decodeSessionID_eq, QueryUnescape_QueryEscape_append,
    QueryUnescape_cons_literal chDash y (by decide) (by decide)]
  cases QueryUnescape y with
  | error e => rfl
  | ok x => simp only [Except.map]; exact checkParts_body secret sid x

theorem decodeSessionID_encode_other (secret secret2 sid : Str) :
    decodeSessionID secret2 (encodeSessionID secret sid) =
      if signature secret sid = signature secret2 sid then .ok sid
      else .error InvalidSessionID := by
  rw [encodeSessionID_eq, decodeSessionID_after_body,
    QueryUnescape_literal _ (lower_literal _ (signature_lower _ _))]

theorem decodeSessionID_encodeSessionID (secret sid : Str) :
    decodeSessionID secret (encodeSessionID secret sid) = .ok sid := by
  rw [decodeSessionID_encode_other, if_pos rfl]

/-! ## C1 to C6: the signed codec -/

/-- C1. Round trip of the signed codec: for every secret and every raw session ID
(the empty one included), `decodeSessionID (encodeSessionID id)` returns `id`
without error. -/
theorem decode_encode_roundtrip (secret sid : Str) :
    decodeSessionID secret (encodeSessionID secret sid) = .ok sid :=
  decodeSessionID_encodeSessionID secret sid

/-- C2. Soundness of signed decoding: when `decodeSessionID` returns `sid` without
error, the percent-decoded cookie value has exactly one dash, it is `body-sig` with
neither part holding a dash, `body` base64-decodes to `sid`, and `sig` is the
lower-case hex HMAC-SHA1 of `sid` under the secret. -/
theorem decode_sound (secret c sid : Str) (h : decodeSessionID secret c = .ok sid) :
    ∃ u body sig, QueryUnescape c = .ok u ∧ u.count chDash = 1 ∧
      u = body ++ chDash :: sig ∧ chDash ∉ body ∧ chDash ∉ sig ∧
      DecodeString body = .ok sid ∧ sig = hex (hmacSHA1 secret sid) := by
  rw [decodeSessionID_eq] at h
  cases hu : QueryUnescape c with
  | error e => rw [hu] at h; simp at h
  | ok u =>
    rw [hu] at h
    simp only [checkParts] at h
    by_cases hlen : (Split chDash u).length = 2
    · rw [if_neg (by simpa using hlen)] at h
      obtain ⟨a, b, hab⟩ : ∃ a b, Split chDash u = [a, b] := by
        match hs : Split chDash u, hlen with
        | [a, b], _ => exact ⟨a, b, rfl⟩
      rw [hab] at h
      simp only [List.getD_cons_zero, List.getD_cons_succ] at h
      cases hd : DecodeString a with
      | error e => rw [hd] at h; simp at h
      | ok bsid =>
        rw [hd] at h
        simp only at h
        by_cases hsig : signature secret bsid = b
        · rw [if_neg (by simpa using hsig)] at h
          have hid : bsid = sid := by simpa using h
          subst hid
          obtain ⟨h1, h2, h3⟩ := Split_eq_pair chDash u a b hab
          have hcnt := Split_length chDash u
          rw [hab] at hcnt
          simp only [List.length_cons, List.length_nil] at hcnt
          exact ⟨u, a, b, rfl, by omega, h1, h2, h3, hd, hsig.symm⟩
        · rw [if_pos hsig] at h; simp at h
    · rw [if_pos hlen] at h; simp at h

set_option maxRecDepth 100000 in
theorem decode_sound_witness :
    ∃ u body sig,
      QueryUnescape (str "c2VzczEyMw%3D%3D-f0407b25a97eaec8142a2803875c277898bb939f") = .ok u ∧
      u.count chDash = 1 ∧ u = body ++ chDash :: sig ∧ chDash ∉ body ∧ chDash ∉ sig ∧
      DecodeString body = .ok (str "sess123") ∧
      sig = hex (hmacSHA1 (str "topsecret") (str "sess123")) :=
  decode_sound (str "topsecret")
    (str "c2VzczEyMw%3D%3D-f0407b25a97eaec8142a2803875c277898bb939f") (str "sess123")
    (by decide)

/-- C5. Malformed separator count: when the percent-decoded cookie value holds no
dash or more than one, `decodeSessionID` fails with "Invalid session ID", whatever
the secret. -/
theorem decode_wrong_dash_count (secret c u : Str) (hu : QueryUnescape c = .ok u)
    (hcount : u.count chDash ≠ 1) :
    decodeSessionID secret c = .error InvalidSessionID := by
  rw [decodeSessionID_eq, hu]
  simp only [checkParts]
  have : (Split chDash u).length ≠ 2 := by rw [Split_length]; omega
  rw [if_pos this]

theorem decode_wrong_dash_count_witness :
    decodeSessionID (str "topsecret") (str "abc") = .error InvalidSessionID ∧
    decodeSessionID (str "topsecret") (str "a-b-c") = .error InvalidSessionID ∧
    decodeSessionID (str "topsecret") (str "") = .error InvalidSessionID :=
  ⟨decode_wrong_dash_count _ (str "abc") (str "abc") (by decide) (by decide),
   decode_wrong_dash_count _ (str "a-b-c") (str "a-b-c") (by decide) (by decide),
   decode_wrong_dash_count _ (str "") (str "") (by decide) (by decide)⟩

/-- C6. Wrong-secret rejection: a cookie value encoded under `secret` decodes to the
ID under the same secret, and under any secret whose HMAC-SHA1 of the ID differs it
fails with "Invalid session ID". -/
theorem decode_wrong_secret (secret secret2 sid : Str)
    (h : hmacSHA1 secret2 sid ≠ hmacSHA1 secret sid) :
    decodeSessionID secret (encodeSessionID secret sid) = .ok sid ∧
      decodeSessionID secret2 (encodeSessionID secret sid) = .error InvalidSessionID := by
  refine ⟨decodeSessionID_encodeSessionID secret sid, ?_⟩
  rw [decodeSessionID_encode_other, if_neg]
  intro e
  exact h (hex_injective e).symm

set_option maxRecDepth 100000 in
theorem decode_wrong_secret_witness :
    decodeSessionID (str "topsecret") (encodeSessionID (str "topsecret") (str "sess123")) =
      .ok (str "sess123") ∧
    decodeSessionID (str "wrong") (encodeSessionID (str "topsecret") (str "sess123")) =
      .error InvalidSessionID :=
  decode_wrong_secret (str "topsecret") (str "wrong") (str "sess123") (by decide)

/-! ## C3: a changed character in the signature -/

theorem set_at_length {α : Type} (A B : List α) (o c : α) :
    (A ++ o :: B).set A.length c = A ++ c :: B := by
  induction A with
  | nil => rfl
  | cons a A ih => simp [ih]

theorem getD_at_length {α : Type} (A B : List α) (o d : α) :
    (A ++ o :: B).getD A.length d = o := by
  induction A with
  | nil => rfl
  | cons a A ih => simpa using ih

theorem split_at_index {α : Type} (l : List α) (i : Nat) (h : i < l.length) :
    ∃ pre post o, l = pre ++ o :: post ∧ pre.length = i :=
  ⟨l.take i, l.drop (i + 1), l[i], by
    rw [← List.drop_eq_getElem_cons h, List.take_append_drop], by
    rw [List.length_take]; omega⟩

/-- Percent-decoding a run of hex digits in which one digit was replaced: an error
when `'%'` was put within the last two positions, a different string otherwise. -/
theorem QueryUnescape_tampered (pre post : Str) (o c : Byte)
    (hpre : ∀ d ∈ pre, lowerHexDigit d = true) (hpost : ∀ d ∈ post, lowerHexDigit d = true)
    (ho : lowerHexDigit o = true) (hc : c ≠ o) :
    (c = chPercent ∧ post.length < 2 ∧
        QueryUnescape (pre ++ c :: post) = .error (.EscapeError (c :: post))) ∨
    (¬ (c = chPercent ∧ post.length < 2) ∧
        ∃ x, QueryUnescape (pre ++ c :: post) = .ok x ∧ x ≠ pre ++ o :: post) := by
  rw [QueryUnescape_append_literal pre _ (lower_literal pre hpre)]
  have hpostlit := QueryUnescape_literal post (lower_literal post hpost)
  by_cases hpc : c = chPercent
  · subst hpc
    match post, hpost, hpostlit with
    | [], _, _ =>
      left
      refine ⟨rfl, by simp, ?_⟩
      simp [QueryUnescape, Except.map]
    | [h1], _, _ =>
      left
      refine ⟨rfl, by simp, ?_⟩
      simp [QueryUnescape, Except.map]
    | h1 :: h2 :: r, hpost, _ =>
      right
      refine ⟨by simp, ?_⟩
      have e1 := (lowerHexDigit_facts h1 (hpost h1 (by simp))).2.2.2.2.2
      have e2 := (lowerHexDigit_facts h2 (hpost h2 (by simp))).2.2.2.2.2
      have hr := QueryUnescape_literal r
        (lower_literal r (fun d hd => hpost d (by simp [hd])))
      rw [QueryUnescape_escape _ _ _ e1 e2, hr]
      refine ⟨pre ++ byte (unhex h1 <<< 4 ||| unhex h2) :: r, rfl, ?_⟩
      intro e
      have := congrArg List.length e
      simp at this
  · right
    refine ⟨fun h => hpc h.1, ?_⟩
    by_cases hpl : c = chPlus
    · subst hpl
      rw [QueryUnescape_plus, hpostlit]
      refine ⟨pre ++ chSpace :: post, rfl, ?_⟩
      intro e
      have e2 := List.append_cancel_left e
      simp only [List.cons.injEq] at e2
      exact (lowerHexDigit_facts o ho).2.2.2.1 e2.1.symm
    · rw [QueryUnescape_cons_literal c _ hpc hpl, hpostlit]
      refine ⟨pre ++ c :: post, rfl, ?_⟩
      intro e
      have e2 := List.append_cancel_left e
      simp only [List.cons.injEq] at e2
      exact hc e2.1

/-- The dash of an encoded cookie value stands right after the escaped body. -/
theorem indexOf_dash_encodeSessionID (secret sid : Str) :
    (encodeSessionID secret sid).indexOf chDash =
      (QueryEscape (EncodeToString sid)).length := by
  rw [encodeSessionID_eq, List.indexOf_append_of_not_mem
    (dash_not_mem_QueryEscape _ (dash_not_mem_EncodeToString sid))]
  simp

/-- C3, as amended. Signature tamper detection: replacing any one character of the
signature portion of `encodeSessionID id` by a different character makes
`decodeSessionID` fail: with the percent-decoding error when the replacement is `'%'`
at one of the last two positions, with "Invalid session ID" in every other case. -/
theorem signature_tamper_rejected (secret sid : Str) (p : Nat) (c : Byte)
    (hp1 : (encodeSessionID secret sid).indexOf chDash < p)
    (hp2 : p < (encodeSessionID secret sid).length)
    (hc : c ≠ (encodeSessionID secret sid).getD p 0) :
    decodeSessionID secret ((encodeSessionID secret sid).set p c) =
      if c = chPercent ∧ (encodeSessionID secret sid).length ≤ p + 2 then
        .error (.EscapeError (((encodeSessionID secret sid).set p c).drop p))
      else .error InvalidSessionID := by
  rw [indexOf_dash_encodeSessionID] at hp1
  have hlen : (encodeSessionID secret sid).length =
      (QueryEscape (EncodeToString sid)).length + 1 + (signature secret sid).length := by
    rw [encodeSessionID_eq]; simp; omega
  obtain ⟨pre, post, o, hsig, hpre⟩ := split_at_index (signature secret sid)
    (p - (QueryEscape (EncodeToString sid)).length - 1) (by omega)
  have hlow := signature_lower secret sid
  rw [hsig] at hlow
  have hlpre : ∀ d ∈ pre, lowerHexDigit d = true := fun d hd => hlow d (by simp [hd])
  have hlpost : ∀ d ∈ post, lowerHexDigit d = true := fun d hd => hlow d (by simp [hd])
  have hlo : lowerHexDigit o = true := hlow o (by simp)
  have henc : encodeSessionID secret sid =
      (QueryEscape (EncodeToString sid) ++ chDash :: pre) ++ o :: post := by
    rw [encodeSessionID_eq, hsig]; simp
  have hpeq : p = (QueryEscape (EncodeToString sid) ++ chDash :: pre).length := by
    simp; omega
  have hlen2 : (encodeSessionID secret sid).length = p + 1 + post.length := by
    rw [henc, hpeq]; simp; omega
  rw [hlen2]
  rw [henc, hpeq, getD_at_length] at hc
  rw [henc, hpeq, set_at_length, List.drop_left]
  have hre : (QueryEscape (EncodeToString sid) ++ chDash :: pre) ++ c :: post =
      QueryEscape (EncodeToString sid) ++ chDash :: (pre ++ c :: post) := by simp
  rw [hre, decodeSessionID_after_body]
  rcases QueryUnescape_tampered pre post o c hlpre hlpost hlo hc with ⟨h1, h2, h3⟩ | ⟨h1, x, h2, h3⟩
  · rw [h3, if_pos ⟨h1, by omega⟩]
  · rw [h2, if_neg (fun h => h1 ⟨h.1, by omega⟩)]
    simp only
    rw [if_neg (by rw [hsig]; exact h3)]

set_option maxRecDepth 100000 in
theorem signature_tamper_rejected_witness :
    decodeSessionID (str "topsecret")
        ((encodeSessionID (str "topsecret") (str "sess123")).set 20 120) =
      .error InvalidSessionID ∧
    decodeSessionID (str "topsecret")
        ((encodeSessionID (str "topsecret") (str "sess123")).set 55 chPercent) =
      .error (.EscapeError [chPercent, 102]) := by
  have h1 := signature_tamper_rejected (str "topsecret") (str "sess123") 20 120
    (by decide) (by decide) (by decide)
  have h2 := signature_tamper_rejected (str "topsecret") (str "sess123") 55 chPercent
    (by decide) (by decide) (by decide)
  rw [h1, h2]
  decide

set_option maxRecDepth 100000 in
/-- C3, counterexample. Under secret "topsecret" the cookie value of "sess123" has 57
characters, the dash at index 16; replacing the last signature character (index 56,
`'f'`) by `'%'` makes `decodeSessionID` fail with the percent-decoding error
`EscapeError "%"`, which is not "Invalid session ID". -/
theorem signature_tamper_counterexample :
    (encodeSessionID (str "topsecret") (str "sess123")).indexOf chDash < 56 ∧
    56 < (encodeSessionID (str "topsecret") (str "sess123")).length ∧
    chPercent ≠ (encodeSessionID (str "topsecret") (str "sess123")).getD 56 0 ∧
    decodeSessionID (str "topsecret")
        ((encodeSessionID (str "topsecret") (str "sess123")).set 56 chPercent) =
      .error (.EscapeError [chPercent]) ∧
    decodeSessionID (str "topsecret")
        ((encodeSessionID (str "topsecret") (str "sess123")).set 56 chPercent) ≠
      .error InvalidSessionID := by
  decide

/-! ## C4: a changed character in the base64 body -/

theorem QueryUnescape_error_kind :
    ∀ (n : Nat) (s : Str) (e : Error), s.length ≤ n → QueryUnescape s = .error e →
      ∃ t, e = .EscapeError t := by
  intro n
  induction n with
  | zero =>
    intro s e hs h
    have : s = [] := List.length_eq_zero.mp (by omega)
    subst this
    simp [QueryUnescape] at h
  | succ n ih =>
    intro s e hs h
    match s, hs, h with
    | [], _, h => simp [QueryUnescape] at h
    | c :: rest, hs, h =>
      by_cases hc : c = chPercent
      · subst hc
        match rest, hs, h with
        | [], _, h => simp [QueryUnescape] at h; exact ⟨_, h.symm⟩
        | [h1], _, h => simp [QueryUnescape] at h; exact ⟨_, h.symm⟩
        | h1 :: h2 :: r, hs, h =>
          by_cases hx : ishex h1 = true ∧ ishex h2 = true
          · rw [QueryUnescape_escape _ _ _ hx.1 hx.2] at h
            cases hr : QueryUnescape r with
            | error e2 =>
              rw [hr] at h
              simp only [Except.map, Except.error.injEq] at h
              subst h
              exact ih r e2 (by simp at hs; omega) hr
            | ok y => rw [hr] at h; simp [Except.map] at h
          · rw [QueryUnescape.eq_def] at h
            simp [hx] at h
            exact ⟨_, h.symm⟩
      · have hstep : QueryUnescape (c :: rest) =
            (QueryUnescape rest).map (fun t => (if c = chPlus then chSpace else c) :: t) := by
          rw [QueryUnescape.eq_def]
          simp only [if_neg hc]
          cases QueryUnescape rest <;> rfl
        rw [hstep] at h
        cases hr : QueryUnescape rest with
        | error e2 =>
          rw [hr] at h
          simp only [Except.map, Except.error.injEq] at h
          subst h
          exact ih rest e2 (by simp at hs; omega) hr
        | ok y => rw [hr] at h; simp [Except.map] at h

theorem decodePadding_error_kind (j : Nat) (dbuf : List Nat) (out src : List Byte) (si : Nat)
    (e : Error) (h : decodePadding j dbuf out src si = .error e) :
    ∃ n, e = .CorruptInputError n := by
  unfold decodePadding at h
  split at h
  · exact ⟨_, (Except.error.inj h).symm⟩
  · simp only at h
    split at h
    · rename_i e2 heq
      have he : e2 = e := Except.error.inj h
      subst he
      split at heq
      · split at heq
        · exact ⟨_, (Except.error.inj heq).symm⟩
        · split at heq
          · exact ⟨_, (Except.error.inj heq).symm⟩
          · simp at heq
      · simp at heq
    · split at h
      · simp at h
      · exact ⟨_, (Except.error.inj h).symm⟩

theorem decodeLoop_error_kind (src : List Byte) :
    ∀ (j : Nat) (dbuf : List Nat) (out : List Byte) (si : Nat) (e : Error),
      decodeLoop j dbuf out src si = .error e → ∃ n, e = .CorruptInputError n := by
  induction src with
  | nil =>
    intro j dbuf out si e h
    rw [decodeLoop] at h
    split at h
    · simp at h
    · exact ⟨_, (Except.error.inj h).symm⟩
  | cons c rest ih =>
    intro j dbuf out si e h
    rw [decodeLoop] at h
    split at h
    · split at h
      · exact ih _ _ _ _ _ h
      · exact ih _ _ _ _ _ h
    · split at h
      · exact ih _ _ _ _ _ h
      · split at h
        · exact ⟨_, (Except.error.inj h).symm⟩
        · exact decodePadding_error_kind _ _ _ _ _ _ h

/-- Every failure of `decodeSessionID` is "Invalid session ID", a percent-decoding
error or a base64 error. -/
theorem decodeSessionID_error_kind (secret c : Str) (e : Error)
    (h : decodeSessionID secret c = .error e) :
    e = InvalidSessionID ∨ (∃ t, e = .EscapeError t) ∨ (∃ n, e = .CorruptInputError n) := by
  rw [decodeSessionID_eq] at h
  cases hu : QueryUnescape c with
  | error e2 =>
    rw [hu] at h
    have he : e2 = e := Except.error.inj h
    subst he
    exact Or.inr (Or.inl (QueryUnescape_error_kind _ c e2 (Nat.le_refl _) hu))
  | ok u =>
    rw [hu] at h
    simp only [checkParts] at h
    split at h
    · exact Or.inl (Except.error.inj h).symm
    · split at h
      · rename_i e2 heq
        have he : e2 = e := Except.error.inj h
        subst he
        exact Or.inr (Or.inr (decodeLoop_error_kind _ _ _ _ _ _ heq))
      · split at h
        · exact Or.inl (Except.error.inj h).symm
        · simp at h

/-- Whatever stands in front of the dash and a run of hex digits: an ID is returned
only when those digits are its signature. -/
theorem decodeSessionID_before_dash (secret u t sid : Str)
    (ht : ∀ c ∈ t, lowerHexDigit c = true)
    (h : decodeSessionID secret (u ++ chDash :: t) = .ok sid) :
    signature secret sid = t := by
  rw [decodeSessionID_eq] at h
  cases hu : QueryUnescape (u ++ chDash :: t) with
  | error e => rw [hu] at h; simp at h
  | ok y =>
    rw [hu] at h
    obtain ⟨x, _, hy⟩ := QueryUnescape_before_dash t (lower_literal t ht) _ u y
      (Nat.le_refl _) hu
    subst hy
    simp only [checkParts] at h
    rw [Split_append_sep, Split_of_not_mem _ t (lower_no_dash t ht)] at h
    split at h
    · simp at h
    · rename_i hlen
      have hx1 : (Split chDash x).length = 1 := by
        simp only [List.length_append, List.length_singleton, ne_eq, Decidable.not_not] at hlen
        omega
      obtain ⟨a, ha⟩ : ∃ a, Split chDash x = [a] := by
        match hs : Split chDash x, hx1 with
        | [a], _ => exact ⟨a, rfl⟩
      rw [ha] at h
      simp only [List.singleton_append, List.getD_cons_zero, List.getD_cons_succ] at h
      split at h
      · simp at h
      · split at h
        · simp at h
        · rename_i bsid _ hsig
          have : bsid = sid := by simpa using h
          subst this
          simpa using hsig

/-- C4, as amended. Body tamper detection: replacing any one character of the body
portion (before the dash) of `encodeSessionID id` by a different character makes
`decodeSessionID` either fail, with a percent-decoding error, a base64 error or
"Invalid session ID", or return an ID whose signature under the secret is the
signature of `id`. -/
theorem body_tamper_detected (secret sid : Str) (p : Nat) (c : Byte)
    (hp : p < (encodeSessionID secret sid).indexOf chDash)
    (_hc : c ≠ (encodeSessionID secret sid).getD p 0) :
    (∃ e, decodeSessionID secret ((encodeSessionID secret sid).set p c) = .error e ∧
        (e = InvalidSessionID ∨ (∃ t, e = .EscapeError t) ∨
          (∃ n, e = .CorruptInputError n))) ∨
    (∃ sid2, decodeSessionID secret ((encodeSessionID secret sid).set p c) = .ok sid2 ∧
        signature secret sid2 = signature secret sid) := by
  rw [indexOf_dash_encodeSessionID] at hp
  rw [encodeSessionID_eq, List.set_append_left _ _ hp]
  cases hd : decodeSessionID secret
      ((QueryEscape (EncodeToString sid)).set p c ++ chDash :: signature secret sid) with
  | error e => exact Or.inl ⟨e, rfl, decodeSessionID_error_kind _ _ e hd⟩
  | ok sid2 =>
    exact Or.inr ⟨sid2, rfl,
      decodeSessionID_before_dash secret _ _ sid2 (signature_lower secret sid) hd⟩

set_option maxRecDepth 100000 in
theorem body_tamper_detected_witness :
    (∃ e, decodeSessionID (str "topsecret")
          ((encodeSessionID (str "topsecret") (str "sess123")).set 3 chPad) = .error e ∧
        (e = InvalidSessionID ∨ (∃ t, e = .EscapeError t) ∨
          (∃ n, e = .CorruptInputError n))) ∨
    (∃ sid2, decodeSessionID (str "topsecret")
          ((encodeSessionID (str "topsecret") (str "sess123")).set 3 chPad) = .ok sid2 ∧
        signature (str "topsecret") sid2 = signature (str "topsecret") (str "sess123")) :=
  body_tamper_detected (str "topsecret") (str "sess123") 3 chPad (by decide) (by decide)

set_option maxRecDepth 100000 in
/-- C4, counterexample. Under secret "topsecret" the cookie value of "sess123" is
`c2VzczEyMw%3D%3D-f040...`; replacing the body character at index 9 (`'w'`) by `'x'`
changes only the unused low bits of the last sextet, and replacing the `'D'` at index
12 by `'d'` only the case of a percent escape: `decodeSessionID` accepts both modified
values and returns "sess123". -/
theorem body_tamper_counterexample :
    9 < (encodeSessionID (str "topsecret") (str "sess123")).indexOf chDash ∧
    (120 : Byte) ≠ (encodeSessionID (str "topsecret") (str "sess123")).getD 9 0 ∧
    decodeSessionID (str "topsecret")
        ((encodeSessionID (str "topsecret") (str "sess123")).set 9 120) =
      .ok (str "sess123") ∧
    12 < (encodeSessionID (str "topsecret") (str "sess123")).indexOf chDash ∧
    (100 : Byte) ≠ (encodeSessionID (str "topsecret") (str "sess123")).getD 12 0 ∧
    decodeSessionID (str "topsecret")
        ((encodeSessionID (str "topsecret") (str "sess123")).set 12 100) =
      .ok (str "sess123") := by
  decide

/-! ## C7: `Find` fails before the store is consulted -/

/-- C7. Fail-fast before the store in the signed path: when the request has no
"session" cookie, or `decodeSessionID` fails on its value, `Find` returns that error
and leaves the state behind the manager as it was; the result is the same for any two
store managers, so `m.Find` plays no part in it. -/
theorem Find_fail_fast {μ : Type} (secret : Str) (m1 m2 : StoreManager μ) (st : μ)
    (r : Request) (e : Error)
    (h : r.Cookie cookieName = .error e ∨
      ∃ c, r.Cookie cookieName = .ok c ∧ decodeSessionID secret c.Value = .error e) :
    Find secret m1 st r = (.error e, st) ∧ Find secret m1 st r = Find secret m2 st r := by
  have key : ∀ m : StoreManager μ, Find secret m st r = (.error e, st) := by
    intro m
    unfold Find
    rcases h with h | ⟨c, h1, h2⟩
    · rw [h]
    · rw [h1]; simp only; rw [h2]
  exact ⟨key m1, by rw [key m1, key m2]⟩

theorem Find_fail_fast_witness :
    (Find (str "topsecret") memStoreManager [] { cookies := [] } =
        (.error Error.ErrNoCookie, []) ∧
      Find (str "topsecret") memStoreManager [] { cookies := [] } =
        Find (str "topsecret") { memStoreManager with Find := fun st _ => (.error .ErrNoCookie, st) }
          [] { cookies := [] }) ∧
    (Find (str "topsecret") memStoreManager [] { cookies := [(str "session", str "a-b-c")] } =
        (.error InvalidSessionID, []) ∧
      Find (str "topsecret") memStoreManager [] { cookies := [(str "session", str "a-b-c")] } =
        Find (str "topsecret") { memStoreManager with Find := fun st _ => (.error .ErrNoCookie, st) }
          [] { cookies := [(str "session", str "a-b-c")] }) :=
  ⟨Find_fail_fast _ _ _ _ _ _ (Or.inl (by decide)),
   Find_fail_fast _ _ _ _ _ _
     (Or.inr ⟨{ Name := str "session", Value := str "a-b-c", Expires := none },
       by decide, by decide⟩)⟩

/-! ## Cookie text of `net/http` -/

set_option maxRecDepth 100000 in
theorem validCookieValueByte_facts : ∀ b : Byte, validCookieValueByte b = true →
    b ≠ 59 ∧ b ≠ 34 ∧ (b ≠ 32 → isASCIISpace b = false) := by
  decide

theorem mem_filter_valid (v : Str) :
    ∀ b ∈ v.filter validCookieValueByte, validCookieValueByte b = true :=
  fun _ hb => (List.mem_filter.mp hb).2

theorem dropWhile_head {α : Type} (p : α → Bool) (l : List α)
    (h : ∀ b, l.head? = some b → p b = false) : l.dropWhile p = l := by
  cases l with
  | nil => rfl
  | cons a rest => simp [List.dropWhile, h a rfl]

theorem TrimString_id (l : Str) (h1 : ∀ b, l.head? = some b → isASCIISpace b = false)
    (h2 : ∀ b, l.getLast? = some b → isASCIISpace b = false) : TrimString l = l := by
  unfold TrimString
  rw [dropWhile_head _ l h1, dropWhile_head _ l.reverse (by simpa using h2),
    List.reverse_reverse]

theorem parseCookieValue_plain (f : Str) (hall : ∀ b ∈ f, validCookieValueByte b = true) :
    parseCookieValue f = some f := by
  have hhead : ¬ (f.head? = some 34) := by
    intro hh
    have hm : (34 : Byte) ∈ f := List.mem_of_mem_head? hh
    exact (validCookieValueByte_facts 34 (hall 34 hm)).2.1 rfl
  have hall2 : f.all validCookieValueByte = true := List.all_eq_true.mpr hall
  unfold parseCookieValue
  simp only [hhead, false_and, and_false, if_false, hall2, if_true]

theorem parseCookieValue_quoted (f : Str) (hall : ∀ b ∈ f, validCookieValueByte b = true) :
    parseCookieValue (34 :: (f ++ [34])) = some f := by
  have hlast : (34 :: (f ++ [34])).getLast? = some (34 : Byte) := by
    rw [← List.cons_append]
    exact List.getLast?_concat _
  have hlen : 1 < (34 :: (f ++ [34])).length := by simp
  have hall2 : f.all validCookieValueByte = true := List.all_eq_true.mpr hall
  unfold parseCookieValue
  simp only [hlen, hlast, List.head?_cons, and_self, if_true, List.drop_succ_cons,
    List.drop_zero, List.dropLast_concat, hall2]

/-- What `sanitizeCookieValue` writes is read back by `parseCookieValue` as the value
without its invalid bytes. -/
theorem parseCookieValue_sanitizeCookieValue (v : Str) :
    parseCookieValue (sanitizeCookieValue v) = some (v.filter validCookieValueByte) := by
  unfold sanitizeCookieValue
  simp only
  split
  · exact parseCookieValue_plain _ (mem_filter_valid v)
  · split
    · exact parseCookieValue_quoted _ (mem_filter_valid v)
    · exact parseCookieValue_plain _ (mem_filter_valid v)

theorem sanitizeCookieValue_no_semicolon (v : Str) : (59 : Byte) ∉ sanitizeCookieValue v := by
  have hf : (59 : Byte) ∉ v.filter validCookieValueByte := fun hm =>
    (validCookieValueByte_facts 59 (mem_filter_valid v 59 hm)).1 rfl
  unfold sanitizeCookieValue
  simp only
  split
  · exact hf
  · split
    · simp only [List.mem_cons, List.mem_append, List.mem_singleton, not_or]
      exact ⟨by decide, hf, by decide⟩
    · exact hf

theorem sanitizeCookieValue_last (v : Str) :
    ∀ b, (sanitizeCookieValue v).getLast? = some b → isASCIISpace b = false := by
  intro b hb
  unfold sanitizeCookieValue at hb
  simp only at hb
  split at hb
  · rename_i h0
    rw [h0] at hb
    simp at hb
  · split at hb
    · have : (34 :: (v.filter validCookieValueByte ++ [34])).getLast? = some (34 : Byte) := by
        rw [← List.cons_append, List.getLast?_append]
        simp
      rw [this] at hb
      have hb2 : b = 34 := by simpa using hb.symm
      rw [hb2]
      decide
    · rename_i hq
      have hm : b ∈ v.filter validCookieValueByte := List.mem_of_getLast?_eq_some hb
      have hne : b ≠ 32 := fun e => hq (Or.inl (e ▸ hm))
      exact (validCookieValueByte_facts b (mem_filter_valid v b hm)).2.2 hne

theorem session_bytes : str "session" = [115, 101, 115, 115, 105, 111, 110] := by
  decide

/-- The text that `AddCookie` writes for a cookie named "session" is read back as one
cookie of that name, whose value is the written value without its invalid bytes. -/
theorem readCookieLine_session (v : Str) :
    readCookieLine (str "session" ++ 61 :: sanitizeCookieValue v) =
      [(str "session", v.filter validCookieValueByte)] := by
  have htrim : TrimString (str "session" ++ 61 :: sanitizeCookieValue v) =
      str "session" ++ 61 :: sanitizeCookieValue v := by
    apply TrimString_id
    · intro b hb
      rw [session_bytes] at hb
      simp only [List.cons_append, List.head?_cons, Option.some.injEq] at hb
      rw [← hb]
      decide
    · intro b hb
      rw [List.getLast?_append] at hb
      cases hl : (61 :: sanitizeCookieValue v).getLast? with
      | none => simp at hl
      | some x =>
        rw [hl] at hb
        simp only [Option.or_some, Option.some.injEq] at hb
        subst hb
        cases hsv : sanitizeCookieValue v with
        | nil =>
          rw [hsv] at hl
          simp only [List.getLast?_singleton, Option.some.injEq] at hl
          rw [← hl]
          decide
        | cons a rest =>
          rw [hsv, List.getLast?_cons_cons] at hl
          rw [← hsv] at hl
          exact sanitizeCookieValue_last v _ hl
  have hsplit : Split 59 (str "session" ++ 61 :: sanitizeCookieValue v) =
      [str "session" ++ 61 :: sanitizeCookieValue v] := by
    apply Split_of_not_mem
    simp only [List.mem_append, List.mem_cons, not_or]
    exact ⟨by decide, by decide, sanitizeCookieValue_no_semicolon v⟩
  have hcut : Cut 61 (str "session" ++ 61 :: sanitizeCookieValue v) =
      (str "session", sanitizeCookieValue v) := by
    rw [session_bytes]
    simp [Cut, List.takeWhile, List.dropWhile]
  have hname : TrimString (str "session") = str "session" := by decide
  have hvalid : isCookieNameValid (str "session") = true := by decide
  have hne : str "session" ++ 61 :: sanitizeCookieValue v ≠ [] := by
    rw [session_bytes]; simp
  unfold readCookieLine
  rw [htrim, hsplit]
  simp only [List.filterMap_cons, List.filterMap_nil, htrim, if_neg hne, hcut, hname, hvalid,
    if_true, parseCookieValue_sanitizeCookieValue]

theorem AddCookie_session (r : Request) (v : Str) (e : Option Time) :
    (r.AddCookie { Name := str "session", Value := v, Expires := e }).cookies =
      r.cookies ++ [(str "session", v.filter validCookieValueByte)] := by
  have hn : sanitizeCookieName (str "session") = str "session" := by decide
  simp only [Request.AddCookie, hn, readCookieLine_session]

theorem SetCookie_session (w : ResponseWriter) (v : Str) (e : Option Time) :
    (SetCookie w { Name := str "session", Value := v, Expires := e }).setCookies =
      w.setCookies ++ [{ Name := str "session", Value := sanitizeCookieValue v,
                         Expires := headerExpires e }] := by
  have hvalid : isCookieNameValid (str "session") = true := by decide
  simp only [SetCookie, hvalid, if_true]

theorem filter_valid_id (v : Str) (h : ∀ b ∈ v, validCookieValueByte b = true) :
    v.filter validCookieValueByte = v :=
  List.filter_eq_self.mpr h

theorem sanitizeCookieValue_id (v : Str)
    (h : ∀ b ∈ v, validCookieValueByte b = true ∧ b ≠ 32 ∧ b ≠ 44) :
    sanitizeCookieValue v = v := by
  unfold sanitizeCookieValue
  simp only
  rw [filter_valid_id v (fun b hb => (h b hb).1)]
  split
  · rfl
  · rw [if_neg]
    intro hq
    rcases hq with hq | hq
    · exact (h _ hq).2.1 rfl
    · exact (h _ hq).2.2 rfl

theorem headerExpires_whole (t : Time) (h1 : validCookieExpires t = true)
    (h2 : Int.emod t Second = 0) : headerExpires (some t) = some t := by
  simp only [headerExpires, h1, if_true, h2, Int.sub_zero]

/-! ## C8, C9: the plain manager -/

theorem memStore_law (s : List (Str × List Byte)) (k : Str) (v : List Byte)
    (s2 : List (Str × List Byte)) (h : memStore.Store s k v = (none, s2)) :
    (memStore.Retrieve s2 k).1 = .ok v := by
  simp only [memStore, Prod.mk.injEq, true_and] at h
  subst h
  simp [memStore]

theorem Cookie_last (l : List (Str × Str)) (name v : Str)
    (h : ∀ c ∈ l, c.1 ≠ name) :
    Request.Cookie { cookies := l ++ [(name, v)] } name =
      .ok { Name := name, Value := v, Expires := none } := by
  unfold Request.Cookie
  have : (l ++ [(name, v)]).find? (fun c => c.1 = name) = some (name, v) := by
    induction l with
    | nil => simp
    | cons a l ih =>
      have ha := h a (List.mem_cons_self _ _)
      simp only [List.cons_append, List.find?_cons, ha, decide_False]
      exact ih (fun c hc => h c (List.mem_cons_of_mem _ hc))
  simp only [this]

/-- C8, as amended. Postcondition of plain `Manager.New`: with `id` the string the
generator returns, `d` the configured duration and `now` the current time, when
serialization gives `b` and `Store.Store(id, b)` succeeds, `New` returns the session
`{ID: id, ExpiresAt: now + d}` without a `Value`; the backend is in the state that the
call `Store(id, b)` produced, so a store that gives back what was stored holds `b` under
`id`; the cookie handed to `http.SetCookie` and `r.AddCookie` has name "session", value
`id` and `Expires` equal to the session's `ExpiresAt`. The `Set-Cookie` line carries
the name "session", the value `id` without the bytes that are not valid in a cookie
value (in double quotes when it holds a space or a comma) and the expiry in whole
seconds; the request gains the cookie "session" with the value `id` without its invalid
bytes. Both values are exactly `id` when `id` is made of valid cookie-value bytes other
than space and comma, and the expiry of the line is `ExpiresAt` when that is a whole
number of seconds not before the year 1601. -/
theorem Manager_New_post {σ : Type} (codec : Codec) (m : Manager σ) (now : Time)
    (st : MState σ) (w : ResponseWriter) (r : Request) (b : List Byte)
    (hb : codec.Bytes { ID := m.sessionIDFunc st.idCalls,
                        ExpiresAt := now + m.sessionDuration, Value := none } = .ok b)
    (hs : (m.store.Store st.store (m.sessionIDFunc st.idCalls) b).1 = none)
    (hlaw : ∀ s k v s2, m.store.Store s k v = (none, s2) → (m.store.Retrieve s2 k).1 = .ok v) :
    ∃ (s : Session) (st2 : MState σ) (cookie : Cookie),
      Manager.New codec m now st w r = (.ok s, st2, SetCookie w cookie, r.AddCookie cookie) ∧
      s = { ID := m.sessionIDFunc st.idCalls, ExpiresAt := now + m.sessionDuration,
            Value := none } ∧
      st2.store = (m.store.Store st.store s.ID b).2 ∧
      (m.store.Retrieve st2.store s.ID).1 = .ok b ∧
      cookie = { Name := str "session", Value := s.ID, Expires := some s.ExpiresAt } ∧
      (SetCookie w cookie).setCookies = w.setCookies ++
        [{ Name := str "session", Value := sanitizeCookieValue s.ID,
           Expires := headerExpires (some s.ExpiresAt) }] ∧
      (r.AddCookie cookie).cookies =
        r.cookies ++ [(str "session", s.ID.filter validCookieValueByte)] ∧
      ((∀ x ∈ s.ID, validCookieValueByte x = true ∧ x ≠ 32 ∧ x ≠ 44) →
        sanitizeCookieValue s.ID = s.ID ∧ s.ID.filter validCookieValueByte = s.ID) ∧
      (validCookieExpires s.ExpiresAt = true → Int.emod s.ExpiresAt Second = 0 →
        headerExpires (some s.ExpiresAt) = some s.ExpiresAt) := by
  have hpair : m.store.Store st.store (m.sessionIDFunc st.idCalls) b =
      (none, (m.store.Store st.store (m.sessionIDFunc st.idCalls) b).2) := by
    rw [← hs]
  refine ⟨_, ⟨(m.store.Store st.store (m.sessionIDFunc st.idCalls) b).2, st.idCalls + 1⟩,
    { Name := str "session", Value := m.sessionIDFunc st.idCalls,
      Expires := some (now + m.sessionDuration) }, ?_, rfl, rfl, hlaw _ _ _ _ hpair, rfl,
    SetCookie_session _ _ _, AddCookie_session _ _ _, ?_, ?_⟩
  · simp only [Manager.New, Manager.create, Manager.Save, hb, hs, sessionCookieName]
  · intro h
    exact ⟨sanitizeCookieValue_id _ h, filter_valid_id _ (fun x hx => (h x hx).1)⟩
  · intro h1 h2
    exact headerExpires_whole _ h1 h2

set_option maxRecDepth 100000 in
theorem Manager_New_post_witness :
    ∃ (s : Session) (st2 : MState (List (Str × List Byte))) (cookie : Cookie),
      Manager.New sampleCodec (NewManager memStore (fun _ => str "fixed-id") Hour)
          (1700000000 * Second) { store := [], idCalls := 0 } { setCookies := [] }
          { cookies := [] } =
        (.ok s, st2, SetCookie { setCookies := [] } cookie,
          Request.AddCookie { cookies := [] } cookie) ∧
      s = { ID := str "fixed-id", ExpiresAt := 1700000000 * Second + Hour, Value := none } ∧
      st2.store = (memStore.Store [] s.ID
        (lenBytes (1700000000 * Second + Hour).toNat ++ str "fixed-id")).2 ∧
      (memStore.Retrieve st2.store s.ID).1 =
        .ok (lenBytes (1700000000 * Second + Hour).toNat ++ str "fixed-id") ∧
      cookie = { Name := str "session", Value := s.ID, Expires := some s.ExpiresAt } ∧
      (SetCookie { setCookies := [] } cookie).setCookies = [] ++
        [{ Name := str "session", Value := sanitizeCookieValue s.ID,
           Expires := headerExpires (some s.ExpiresAt) }] ∧
      (Request.AddCookie { cookies := [] } cookie).cookies =
        [] ++ [(str "session", s.ID.filter validCookieValueByte)] ∧
      ((∀ x ∈ s.ID, validCookieValueByte x = true ∧ x ≠ 32 ∧ x ≠ 44) →
        sanitizeCookieValue s.ID = s.ID ∧ s.ID.filter validCookieValueByte = s.ID) ∧
      (validCookieExpires s.ExpiresAt = true → Int.emod s.ExpiresAt Second = 0 →
        headerExpires (some s.ExpiresAt) = some s.ExpiresAt) :=
  Manager_New_post sampleCodec (NewManager memStore (fun _ => str "fixed-id") Hour)
    (1700000000 * Second) { store := [], idCalls := 0 } { setCookies := [] } { cookies := [] }
    (lenBytes (1700000000 * Second + Hour).toNat ++ str "fixed-id")
    (by decide) (by decide) memStore_law

set_option maxRecDepth 100000 in
/-- C8, counterexample. The generator returns "a;b", the duration is one hour and the
clock reads five nanoseconds past a whole second. `New` succeeds and returns the
session with ID "a;b"; the `Set-Cookie` line and the cookie the request gains both carry
the value "ab", not "a;b", and the line's expiry is the whole second, five nanoseconds
before the session's `ExpiresAt`. -/
theorem Manager_New_cookie_differs :
    (Manager.New sampleCodec (NewManager memStore (fun _ => str "a;b") Hour)
        (1700000000 * Second + 5) { store := [], idCalls := 0 } { setCookies := [] }
        { cookies := [] }).1 =
      .ok { ID := str "a;b", ExpiresAt := 1700000000 * Second + 5 + Hour, Value := none } ∧
    (Manager.New sampleCodec (NewManager memStore (fun _ => str "a;b") Hour)
        (1700000000 * Second + 5) { store := [], idCalls := 0 } { setCookies := [] }
        { cookies := [] }).2.2.1 =
      { setCookies := [{ Name := str "session", Value := str "ab",
                         Expires := some (1700000000 * Second + Hour) }] } ∧
    (Manager.New sampleCodec (NewManager memStore (fun _ => str "a;b") Hour)
        (1700000000 * Second + 5) { store := [], idCalls := 0 } { setCookies := [] }
        { cookies := [] }).2.2.2 =
      { cookies := [(str "session", str "ab")] } ∧
    str "ab" ≠ str "a;b" ∧
    (1700000000 * Second + Hour : Time) ≠ 1700000000 * Second + 5 + Hour := by
  decide

/-- C9, as amended. New-then-Retrieve in the plain manager: with a store that gives
back the bytes just stored under a key and a serialization pair with
`FromBytes (Bytes s) = s`, for every non-empty generated ID made of bytes that are valid
in a cookie value and every request without a "session" cookie, after a successful
`New` the call `Retrieve` on the same request succeeds and returns the session that
`New` returned, whose ID is the generated one. -/
theorem Manager_New_Retrieve {σ : Type} (codec : Codec) (m : Manager σ) (now : Time)
    (st st2 : MState σ) (w w2 : ResponseWriter) (r r2 : Request) (s : Session)
    (hlaw : ∀ s k v s2, m.store.Store s k v = (none, s2) → (m.store.Retrieve s2 k).1 = .ok v)
    (hcodec : ∀ s b, codec.Bytes s = .ok b → codec.FromBytes b = .ok s)
    (hid : m.sessionIDFunc st.idCalls ≠ [])
    (hvalid : ∀ x ∈ m.sessionIDFunc st.idCalls, validCookieValueByte x = true)
    (hr : ∀ c ∈ r.cookies, c.1 ≠ sessionCookieName)
    (hnew : Manager.New codec m now st w r = (.ok s, st2, w2, r2)) :
    (Manager.Retrieve codec m st2 r2).1 = .ok s ∧ s.ID = m.sessionIDFunc st.idCalls := by
  simp only [Manager.New, Manager.create, Manager.Save] at hnew
  cases hb : codec.Bytes (Session.mk (m.sessionIDFunc st.idCalls)
      (now + m.sessionDuration) none) with
  | error e => rw [hb] at hnew; simp at hnew
  | ok b =>
    rw [hb] at hnew
    simp only at hnew
    cases hst : m.store.Store st.store (m.sessionIDFunc st.idCalls) b with
    | mk res s1 =>
      rw [hst] at hnew
      cases res with
      | some e => simp at hnew
      | none =>
        simp only [Prod.mk.injEq, Except.ok.injEq] at hnew
        obtain ⟨hs, hst2, _, hr2⟩ := hnew
        subst hs hst2 hr2
        refine ⟨?_, rfl⟩
        have hret := hlaw _ _ _ _ hst
        have hjar : r.AddCookie (Cookie.mk sessionCookieName (m.sessionIDFunc st.idCalls)
            (some (now + m.sessionDuration))) =
            Request.mk (r.cookies ++ [(sessionCookieName, m.sessionIDFunc st.idCalls)]) := by
          have h := AddCookie_session r (m.sessionIDFunc st.idCalls)
            (some (now + m.sessionDuration))
          rw [filter_valid_id _ hvalid] at h
          exact congrArg Request.mk h
        unfold Manager.Retrieve
        rw [hjar, Cookie_last _ _ _ hr]
        simp only [if_neg hid, Manager.find]
        cases hq : m.store.Retrieve s1 (m.sessionIDFunc st.idCalls) with
        | mk res2 s3 =>
          rw [hq] at hret
          simp only at hret
          subst hret
          simp only
          exact hcodec _ _ hb

theorem lenBytes_fold (n : Nat) (h : n < 2 ^ 64) :
    (lenBytes n).foldl (fun acc x => acc * 256 + x.val) 0 = n := by
  simp only [lenBytes, byte, List.foldl, Nat.shiftRight_eq_div_pow]
  omega

theorem sampleCodec_law (s : Session) (b : List Byte) (h : sampleCodec.Bytes s = .ok b) :
    sampleCodec.FromBytes b = .ok s := by
  simp only [sampleCodec] at h
  split at h
  · rename_i hc
    obtain ⟨hv, h0, h1⟩ := hc
    have hb : b = lenBytes s.ExpiresAt.toNat ++ s.ID := (Except.ok.inj h).symm
    subst hb
    have hl : (lenBytes s.ExpiresAt.toNat).length = 8 := rfl
    have h1b : (s.ExpiresAt : Int) < 18446744073709551616 := h1
    have h0b : (0 : Int) ≤ s.ExpiresAt := h0
    have hn : s.ExpiresAt.toNat < 2 ^ 64 := by
      obtain ⟨k, hk⟩ := Int.eq_ofNat_of_zero_le h0b
      have hk2 : s.ExpiresAt = (k : Int) := hk
      have e : ((k : Int)).toNat = k := Int.toNat_ofNat k
      rw [hk2] at h1b ⊢
      rw [e]
      have h1c : (k : Int) < (18446744073709551616 : Int) := h1b
      omega
    simp only [sampleCodec, List.length_append, hl, Nat.le_add_right, if_true,
      List.drop_left' hl, List.take_left' hl, lenBytes_fold _ hn]
    cases s with
    | mk id t v =>
      simp only at hv h0
      subst hv
      simp only [Except.ok.injEq, Session.mk.injEq, and_true, true_and]
      exact Int.toNat_of_nonneg h0
  · simp at h

set_option maxRecDepth 100000 in
theorem Manager_New_Retrieve_witness :
    (Manager.Retrieve sampleCodec (NewManager memStore (fun _ => str "fixed-id") Hour)
        { store := [(str "fixed-id",
            lenBytes (1700000000 * Second + Hour).toNat ++ str "fixed-id")], idCalls := 1 }
        { cookies := [(str "lang", str "en"), (str "session", str "fixed-id")] }).1 =
      .ok { ID := str "fixed-id", ExpiresAt := 1700000000 * Second + Hour, Value := none } ∧
    (Session.mk (str "fixed-id") (1700000000 * Second + Hour) none).ID =
      (NewManager memStore (fun _ => str "fixed-id") Hour).sessionIDFunc 0 :=
  Manager_New_Retrieve sampleCodec (NewManager memStore (fun _ => str "fixed-id") Hour)
    (1700000000 * Second) { store := [], idCalls := 0 } _ { setCookies := [] }
    { setCookies := [{ Name := str "session", Value := str "fixed-id",
                       Expires := some (1700000000 * Second + Hour) }] }
    { cookies := [(str "lang", str "en")] } _ _
    memStore_law sampleCodec_law (by decide) (by decide) (by decide) (by decide)

set_option maxRecDepth 100000 in
/-- C9, counterexample. The generator returns the non-empty ID "a;b" and the request
carries no "session" cookie. `New` succeeds and stores the session under "a;b"; the
request gains the cookie `session=ab`, so `Retrieve` on the same request looks up "ab"
and fails with the store's error instead of returning the session. -/
theorem Manager_New_Retrieve_fails :
    (Manager.New sampleCodec (NewManager memStore (fun _ => str "a;b") Hour)
        (1700000000 * Second) { store := [], idCalls := 0 } { setCookies := [] }
        { cookies := [] }).1 =
      .ok { ID := str "a;b", ExpiresAt := 1700000000 * Second + Hour, Value := none } ∧
    (Manager.Retrieve sampleCodec (NewManager memStore (fun _ => str "a;b") Hour)
        (Manager.New sampleCodec (NewManager memStore (fun _ => str "a;b") Hour)
          (1700000000 * Second) { store := [], idCalls := 0 } { setCookies := [] }
          { cookies := [] }).2.1
        (Manager.New sampleCodec (NewManager memStore (fun _ => str "a;b") Hour)
          (1700000000 * Second) { store := [], idCalls := 0 } { setCookies := [] }
          { cookies := [] }).2.2.2).1 =
      .error (Error.External (str "not found")) := by
  decide

/-! ## C10: a request that already carries a "session" cookie -/

set_option maxRecDepth 100000 in
/-- C10, at the failing input. The request carries the cookie `session=old-id` (plain
path; the store holds the session "old-id") or the signed value of "s" (signed path; the
store manager holds the session "s"). `New` succeeds and returns a fresh session
("new-id", respectively "s1"), and appends its cookie after the one already there; the
lookup on the same request (`Manager.Retrieve`, respectively `Find`) reads the first
"session" cookie and returns the old session, not the fresh one. -/
theorem New_then_lookup_with_prior_cookie :
    (Manager.New sampleCodec (NewManager memStore (fun _ => str "new-id") Hour)
        (1700000000 * Second)
        { store := [(str "old-id", lenBytes 5 ++ str "old-id")], idCalls := 0 }
        { setCookies := [] } { cookies := [(str "session", str "old-id")] }).1 =
      .ok { ID := str "new-id", ExpiresAt := 1700000000 * Second + Hour, Value := none } ∧
    (Manager.New sampleCodec (NewManager memStore (fun _ => str "new-id") Hour)
        (1700000000 * Second)
        { store := [(str "old-id", lenBytes 5 ++ str "old-id")], idCalls := 0 }
        { setCookies := [] } { cookies := [(str "session", str "old-id")] }).2.2.2 =
      { cookies := [(str "session", str "old-id"), (str "session", str "new-id")] } ∧
    (Manager.Retrieve sampleCodec (NewManager memStore (fun _ => str "new-id") Hour)
        (Manager.New sampleCodec (NewManager memStore (fun _ => str "new-id") Hour)
          (1700000000 * Second)
          { store := [(str "old-id", lenBytes 5 ++ str "old-id")], idCalls := 0 }
          { setCookies := [] } { cookies := [(str "session", str "old-id")] }).2.1
        (Manager.New sampleCodec (NewManager memStore (fun _ => str "new-id") Hour)
          (1700000000 * Second)
          { store := [(str "old-id", lenBytes 5 ++ str "old-id")], idCalls := 0 }
          { setCookies := [] } { cookies := [(str "session", str "old-id")] }).2.2.2).1 =
      .ok { ID := str "old-id", ExpiresAt := 5, Value := none } ∧
    (New (str "topsecret") memStoreManager 1000 1000
        [{ ID := str "s", ExpiresAt := 5, Value := none }] { setCookies := [] }
        { cookies := [(str "session", encodeSessionID (str "topsecret") (str "s"))] }).1 =
      .ok { ID := str "s1", ExpiresAt := 1000 + 7200 * Second, Value := none } ∧
    (Find (str "topsecret") memStoreManager
        (New (str "topsecret") memStoreManager 1000 1000
          [{ ID := str "s", ExpiresAt := 5, Value := none }] { setCookies := [] }
          { cookies := [(str "session", encodeSessionID (str "topsecret") (str "s"))] }).2.1
        (New (str "topsecret") memStoreManager 1000 1000
          [{ ID := str "s", ExpiresAt := 5, Value := none }] { setCookies := [] }
          { cookies := [(str "session",
              encodeSessionID (str "topsecret") (str "s"))] }).2.2.2).1 =
      .ok { ID := str "s", ExpiresAt := 5, Value := none } := by
  decide

/-! ## C11, C12: `Manager.Retrieve` without a usable cookie -/

theorem Cookie_missing (r : Request) (name : Str) (h : ∀ c ∈ r.cookies, c.1 ≠ name) :
    r.Cookie name = .error Error.ErrNoCookie := by
  unfold Request.Cookie
  have : r.cookies.find? (fun c => c.1 = name) = none := by
    rw [List.find?_eq_none]
    intro c hc
    simpa using h c hc
  simp only [this]

/-- C11. Missing cookie: for every manager, serialization pair and state, on a request
without a cookie named "session" `Manager.Retrieve` fails with `http.ErrNoCookie`,
returns no session and leaves the backend as it was; the result is the same for any two
managers, so no store takes part in it. -/
theorem Retrieve_missing_cookie {σ : Type} (codec codec2 : Codec) (m m2 : Manager σ)
    (st : MState σ) (r : Request) (h : ∀ c ∈ r.cookies, c.1 ≠ str "session") :
    Manager.Retrieve codec m st r = (.error Error.ErrNoCookie, st) ∧
      Manager.Retrieve codec m st r = Manager.Retrieve codec2 m2 st r := by
  have key : ∀ (cd : Codec) (mm : Manager σ),
      Manager.Retrieve cd mm st r = (.error Error.ErrNoCookie, st) := by
    intro cd mm
    unfold Manager.Retrieve
    rw [Cookie_missing r sessionCookieName h]
  exact ⟨key codec m, by rw [key codec m, key codec2 m2]⟩

theorem Retrieve_missing_cookie_witness :
    Manager.Retrieve sampleCodec (NewManager memStore (fun _ => str "fixed-id") Hour)
        { store := [(str "fixed-id", lenBytes 5 ++ str "fixed-id")], idCalls := 1 }
        { cookies := [(str "lang", str "en")] } =
      (.error Error.ErrNoCookie,
        { store := [(str "fixed-id", lenBytes 5 ++ str "fixed-id")], idCalls := 1 }) ∧
    Manager.Retrieve sampleCodec (NewManager memStore (fun _ => str "fixed-id") Hour)
        { store := [(str "fixed-id", lenBytes 5 ++ str "fixed-id")], idCalls := 1 }
        { cookies := [(str "lang", str "en")] } =
      Manager.Retrieve sampleCodec (NewManager memStore (fun _ => str "other") Second)
        { store := [(str "fixed-id", lenBytes 5 ++ str "fixed-id")], idCalls := 1 }
        { cookies := [(str "lang", str "en")] } :=
  Retrieve_missing_cookie _ _ _ _ _ _ (by decide)

/-- C12. Empty cookie value: when the "session" cookie of the request (the first of
that name) has the empty string as value, `Manager.Retrieve` fails with "session cookie
value is empty" and leaves the backend as it was, the same for any two managers; when
its value `v` is non-empty, `Retrieve` is the lookup of the literal key `v` in the
store followed by `FromBytes`: the store's error, or what `FromBytes` makes of the
bytes. -/
theorem Retrieve_cookie_value {σ : Type} (codec codec2 : Codec) (m m2 : Manager σ)
    (st : MState σ) (r : Request) (c : Cookie) (hc : r.Cookie (str "session") = .ok c) :
    (c.Value = [] →
      Manager.Retrieve codec m st r = (.error (Error.Errorf (str "session cookie value is empty")), st) ∧
      Manager.Retrieve codec m st r = Manager.Retrieve codec2 m2 st r) ∧
    (c.Value ≠ [] →
      Manager.Retrieve codec m st r =
        match m.store.Retrieve st.store c.Value with
        | (.error err, s1) => (.error err, { st with store := s1 })
        | (.ok v, s1) => (codec.FromBytes v, { st with store := s1 })) := by
  constructor
  · intro hv
    have key : ∀ (cd : Codec) (mm : Manager σ), Manager.Retrieve cd mm st r =
        (.error (Error.Errorf (str "session cookie value is empty")), st) := by
      intro cd mm
      unfold Manager.Retrieve
      rw [show sessionCookieName = str "session" from rfl, hc]
      simp only [hv, if_true, EmptyValue]
    exact ⟨key codec m, by rw [key codec m, key codec2 m2]⟩
  · intro hv
    unfold Manager.Retrieve
    rw [show sessionCookieName = str "session" from rfl, hc]
    simp only [if_neg hv, Manager.find]

theorem Retrieve_cookie_value_witness :
    Manager.Retrieve sampleCodec (NewManager memStore (fun _ => str "fixed-id") Hour)
        { store := [(str "fixed-id", lenBytes 5 ++ str "fixed-id")], idCalls := 1 }
        { cookies := [(str "session", [])] } =
      (.error (Error.Errorf (str "session cookie value is empty")),
        { store := [(str "fixed-id", lenBytes 5 ++ str "fixed-id")], idCalls := 1 }) ∧
    Manager.Retrieve sampleCodec (NewManager memStore (fun _ => str "fixed-id") Hour)
        { store := [(str "fixed-id", lenBytes 5 ++ str "fixed-id")], idCalls := 1 }
        { cookies := [(str "session", str "fixed-id")] } =
      (.ok { ID := str "fixed-id", ExpiresAt := 5, Value := none },
        { store := [(str "fixed-id", lenBytes 5 ++ str "fixed-id")], idCalls := 1 }) :=
  ⟨((Retrieve_cookie_value sampleCodec sampleCodec
        (NewManager memStore (fun _ => str "fixed-id") Hour)
        (NewManager memStore (fun _ => str "other") Second)
        { store := [(str "fixed-id", lenBytes 5 ++ str "fixed-id")], idCalls := 1 }
        { cookies := [(str "session", [])] }
        { Name := str "session", Value := [], Expires := none } (by decide)).1 rfl).1,
   ((Retrieve_cookie_value sampleCodec sampleCodec
        (NewManager memStore (fun _ => str "fixed-id") Hour)
        (NewManager memStore (fun _ => str "other") Second)
        { store := [(str "fixed-id", lenBytes 5 ++ str "fixed-id")], idCalls := 1 }
        { cookies := [(str "session", str "fixed-id")] }
        { Name := str "session", Value := str "fixed-id", Expires := none }
        (by decide)).2 (by decide)).trans (by decide)⟩

/-! ## C13: `Manager.New` when persistence fails -/

/-- C13. Persistence failure in plain `New`: when serialization of the new session
fails with `e`, or `Store.Store` returns the error `e`, `Manager.New` returns no
session and exactly `e`, and the response and the request's cookies are what they were
before the call. -/
theorem Manager_New_failure {σ : Type} (codec : Codec) (m : Manager σ) (now : Time)
    (st : MState σ) (w : ResponseWriter) (r : Request) (e : Error)
    (h : codec.Bytes { ID := m.sessionIDFunc st.idCalls,
                       ExpiresAt := now + m.sessionDuration, Value := none } = .error e ∨
      ∃ b, codec.Bytes { ID := m.sessionIDFunc st.idCalls,
                         ExpiresAt := now + m.sessionDuration, Value := none } = .ok b ∧
        (m.store.Store st.store (m.sessionIDFunc st.idCalls) b).1 = some e) :
    ∃ st2, Manager.New codec m now st w r = (.error e, st2, w, r) := by
  rcases h with h | ⟨b, hb, hs⟩
  · exact ⟨⟨st.store, st.idCalls + 1⟩,
      by simp only [Manager.New, Manager.create, Manager.Save, h]⟩
  · exact ⟨⟨(m.store.Store st.store (m.sessionIDFunc st.idCalls) b).2, st.idCalls + 1⟩,
      by simp only [Manager.New, Manager.create, Manager.Save, hb, hs]⟩

theorem Manager_New_failure_witness :
    (∃ st2, Manager.New sampleCodec (NewManager memStore (fun _ => str "fixed-id") Hour)
        (-2 * Hour) { store := [], idCalls := 0 } { setCookies := [] }
        { cookies := [(str "lang", str "en")] } =
      (.error (Error.External (str "unsupported session")), st2, { setCookies := [] },
        { cookies := [(str "lang", str "en")] })) ∧
    (∃ st2, Manager.New sampleCodec (NewManager refusingStore (fun _ => str "fixed-id") Hour)
        (1700000000 * Second) { store := (), idCalls := 0 } { setCookies := [] }
        { cookies := [(str "lang", str "en")] } =
      (.error (Error.External (str "store unavailable")), st2, { setCookies := [] },
        { cookies := [(str "lang", str "en")] })) :=
  ⟨Manager_New_failure _ _ _ _ _ _ _ (Or.inl (by decide)),
   Manager_New_failure _ _ _ _ _ _ _
     (Or.inr ⟨lenBytes (1700000000 * Second + Hour).toNat ++ str "fixed-id",
       by decide, by decide⟩)⟩

/-! ## C14: `Manager.Save` over the in-memory store -/

theorem upsert_find_other {β : Type} (st : List (Str × β)) (k k2 : Str) (v : β)
    (h : k2 ≠ k) :
    ((k, v) :: st.filter (fun e => e.1 ≠ k)).find? (fun e => e.1 = k2) =
      st.find? (fun e => e.1 = k2) := by
  have hk : ¬ (k = k2) := fun e => h e.symm
  simp only [List.find?_cons, hk, decide_False]
  rw [List.find?_filter]
  congr 1
  funext a
  by_cases ha2 : a.1 = k2
  · simp [ha2, h]
  · simp [ha2]

/-- C14. `Save` is an idempotent upsert: over the in-memory store (a map from keys to
bytes), when serialization of `s` gives `b`, `Save s` succeeds; afterwards the store
holds exactly one entry for `s.ID`, with bytes `b`, whatever it held for that ID before;
every other key reads as before; and saving `s` a second time leaves the state that
the first save produced. -/
theorem Save_idempotent_upsert (codec : Codec) (gen : Nat → Str) (d : Duration)
    (st : MState (List (Str × List Byte))) (s : Session) (b : List Byte)
    (hb : codec.Bytes s = .ok b) :
    (Manager.Save codec (NewManager memStore gen d) st s).1 = none ∧
    (memStore.Retrieve (Manager.Save codec (NewManager memStore gen d) st s).2.store
      s.ID).1 = .ok b ∧
    (Manager.Save codec (NewManager memStore gen d) st s).2.store.filter
      (fun e => e.1 = s.ID) = [(s.ID, b)] ∧
    (∀ k, k ≠ s.ID →
      (memStore.Retrieve (Manager.Save codec (NewManager memStore gen d) st s).2.store k).1 =
        (memStore.Retrieve st.store k).1) ∧
    Manager.Save codec (NewManager memStore gen d)
        (Manager.Save codec (NewManager memStore gen d) st s).2 s =
      Manager.Save codec (NewManager memStore gen d) st s := by
  have hsave : ∀ st0 : MState (List (Str × List Byte)),
      Manager.Save codec (NewManager memStore gen d) st0 s =
        (none, { st0 with store := (s.ID, b) :: st0.store.filter (fun e => e.1 ≠ s.ID) }) := by
    intro st0
    simp only [Manager.Save, hb, NewManager, memStore]
  rw [hsave (Manager.Save codec (NewManager memStore gen d) st s).2, hsave st]
  refine ⟨rfl, ?_, ?_, ?_, ?_⟩
  · simp [memStore]
  · simp [List.filter_cons, List.filter_filter]
  · intro k hk
    simp only [memStore]
    rw [upsert_find_other st.store s.ID k b hk]
    cases st.store.find? (fun e => e.1 = k) <;> rfl
  · simp [List.filter_cons, List.filter_filter]

theorem Save_idempotent_upsert_witness :
    (Manager.Save sampleCodec (NewManager memStore (fun _ => str "fixed-id") Hour)
      { store := [(str "a", [1]), (str "fixed-id", [2]), (str "b", [3])], idCalls := 1 }
      { ID := str "fixed-id", ExpiresAt := 5, Value := none }).1 = none ∧
    (memStore.Retrieve (Manager.Save sampleCodec
      (NewManager memStore (fun _ => str "fixed-id") Hour)
      { store := [(str "a", [1]), (str "fixed-id", [2]), (str "b", [3])], idCalls := 1 }
      { ID := str "fixed-id", ExpiresAt := 5, Value := none }).2.store
      (str "fixed-id")).1 = .ok (lenBytes 5 ++ str "fixed-id") ∧
    (Manager.Save sampleCodec (NewManager memStore (fun _ => str "fixed-id") Hour)
      { store := [(str "a", [1]), (str "fixed-id", [2]), (str "b", [3])], idCalls := 1 }
      { ID := str "fixed-id", ExpiresAt := 5, Value := none }).2.store.filter
      (fun e => e.1 = str "fixed-id") = [(str "fixed-id", lenBytes 5 ++ str "fixed-id")] ∧
    (∀ k, k ≠ str "fixed-id" →
      (memStore.Retrieve (Manager.Save sampleCodec
        (NewManager memStore (fun _ => str "fixed-id") Hour)
        { store := [(str "a", [1]), (str "fixed-id", [2]), (str "b", [3])], idCalls := 1 }
        { ID := str "fixed-id", ExpiresAt := 5, Value := none }).2.store k).1 =
      (memStore.Retrieve [(str "a", [1]), (str "fixed-id", [2]), (str "b", [3])] k).1) ∧
    Manager.Save sampleCodec (NewManager memStore (fun _ => str "fixed-id") Hour)
        (Manager.Save sampleCodec (NewManager memStore (fun _ => str "fixed-id") Hour)
          { store := [(str "a", [1]), (str "fixed-id", [2]), (str "b", [3])], idCalls := 1 }
          { ID := str "fixed-id", ExpiresAt := 5, Value := none }).2
        { ID := str "fixed-id", ExpiresAt := 5, Value := none } =
      Manager.Save sampleCodec (NewManager memStore (fun _ => str "fixed-id") Hour)
        { store := [(str "a", [1]), (str "fixed-id", [2]), (str "b", [3])], idCalls := 1 }
        { ID := str "fixed-id", ExpiresAt := 5, Value := none } :=
  Save_idempotent_upsert sampleCodec (fun _ => str "fixed-id") Hour
    { store := [(str "a", [1]), (str "fixed-id", [2]), (str "b", [3])], idCalls := 1 }
    { ID := str "fixed-id", ExpiresAt := 5, Value := none } (lenBytes 5 ++ str "fixed-id")
    (by decide)

/-! ## C15, C19: `Session.Put` and `Session.Get` -/

theorem mapGet_mapSet_self (m : List (Str × Any)) (k : Str) (v : Any) :
    mapGet (mapSet m k v) k = some v := by
  simp [mapGet, mapSet]

theorem mapGet_mapSet_other (m : List (Str × Any)) (k k2 : Str) (v : Any) (h : k2 ≠ k) :
    mapGet (mapSet m k v) k2 = mapGet m k2 := by
  unfold mapGet mapSet
  rw [upsert_find_other m k k2 v h]

theorem Get_Put_self (s : Session) (k : Str) (v : Any) : (s.Put k v).Get k = v := by
  simp only [Session.Put, Session.Get, mapGet_mapSet_self]

/-- C15. Put/Get on a `Session`: for every session, with or without a `Value` map,
after `Put(k, v)` the call `Get(k)` returns `v`; after a further `Put(k, v2)` it
returns `v2`; and on a session without a `Value` map `Get` returns nil for every
key. -/
theorem Put_Get (s : Session) (k : Str) (v v2 : Any) (id : Str) (t : Time) :
    (s.Put k v).Get k = v ∧
    ((s.Put k v).Put k v2).Get k = v2 ∧
    (Session.Put { ID := id, ExpiresAt := t, Value := none } k v).Get k = v ∧
    Session.Get { ID := id, ExpiresAt := t, Value := none } k = Any.nil :=
  ⟨Get_Put_self s k v, Get_Put_self _ k v2, Get_Put_self _ k v, rfl⟩

/-- C19. Frame of `Put`: `Put(k, v)` leaves `ID` and `ExpiresAt` as they were and
leaves the result of `Get(k2)` as it was for every key `k2` other than `k`; `Get`
returns the session it was called on unchanged, so a session without a `Value` map
still has none after `Get`. -/
theorem Put_frame (s : Session) (k k2 : Str) (v : Any) (h : k2 ≠ k) :
    (s.Put k v).ID = s.ID ∧ (s.Put k v).ExpiresAt = s.ExpiresAt ∧
    (s.Put k v).Get k2 = s.Get k2 ∧
    (s.GetState k).2 = s ∧ (s.GetState k).1 = s.Get k ∧
    (s.Value = none → (s.GetState k).2.Value = none) := by
  have hstate : (s.GetState k).2 = s := by
    unfold Session.GetState
    cases s.Value with
    | none => rfl
    | some m => simp only; cases mapGet m k <;> rfl
  refine ⟨rfl, rfl, ?_, hstate, ?_, fun hv => by rw [hstate]; exact hv⟩
  · simp only [Session.Put, Session.Get]
    cases s.Value with
    | none =>
      have hk : ¬ k = k2 := fun e => h e.symm
      simp [mapGet, mapSet, hk]
    | some m => simp only [mapGet_mapSet_other m k k2 v h]
  · unfold Session.GetState Session.Get
    cases s.Value with
    | none => rfl
    | some m => simp only; cases mapGet m k <;> rfl

theorem Put_frame_witness :
    (Session.Put (Session.mk (str "fixed-id") 5 (some [(str "user", Any.text (str "ann"))])) (str "role") (Any.int 3)).ID =
      str "fixed-id" ∧
    (Session.Put (Session.mk (str "fixed-id") 5 (some [(str "user", Any.text (str "ann"))])) (str "role")
        (Any.int 3)).ExpiresAt = 5 ∧
    (Session.Put (Session.mk (str "fixed-id") 5 (some [(str "user", Any.text (str "ann"))])) (str "role")
        (Any.int 3)).Get (str "user") =
      Session.Get (Session.mk (str "fixed-id") 5 (some [(str "user", Any.text (str "ann"))])) (str "user") ∧
    (Session.GetState (Session.mk (str "fixed-id") 5 (some [(str "user", Any.text (str "ann"))])) (str "role")).2 =
      (Session.mk (str "fixed-id") 5 (some [(str "user", Any.text (str "ann"))])) ∧
    (Session.GetState (Session.mk (str "fixed-id") 5 (some [(str "user", Any.text (str "ann"))])) (str "role")).1 =
      Session.Get (Session.mk (str "fixed-id") 5 (some [(str "user", Any.text (str "ann"))])) (str "role") ∧
    ((Session.mk (str "fixed-id") 5 (some [(str "user", Any.text (str "ann"))])).Value = none →
      (Session.GetState (Session.mk (str "fixed-id") 5 (some [(str "user", Any.text (str "ann"))])) (str "role")).2.Value = none) :=
  Put_frame (Session.mk (str "fixed-id") 5 (some [(str "user", Any.text (str "ann"))])) (str "role") (str "user")
    (Any.int 3) (by decide)

/-! ## C16: the ID of a new session -/

/-- C16, as amended. Every session that `Manager.New` returns successfully has as `ID`
exactly the string the injected generator returned on that call; the ID is non-empty
whenever that string is, and the code adds no check of its own. -/
theorem Manager_New_ID {σ : Type} (codec : Codec) (m : Manager σ) (now : Time)
    (st st2 : MState σ) (w w2 : ResponseWriter) (r r2 : Request) (s : Session)
    (hnew : Manager.New codec m now st w r = (.ok s, st2, w2, r2)) :
    s.ID = m.sessionIDFunc st.idCalls ∧ (m.sessionIDFunc st.idCalls ≠ [] → s.ID ≠ []) := by
  have hid : s.ID = m.sessionIDFunc st.idCalls := by
    simp only [Manager.New, Manager.create, Manager.Save] at hnew
    split at hnew
    · simp at hnew
    · rename_i s1 st1 heq
      simp only [Prod.mk.injEq, Except.ok.injEq] at hnew
      obtain ⟨hs, _⟩ := hnew
      subst hs
      split at heq
      · simp at heq
      · simp only [Prod.mk.injEq, Except.ok.injEq] at heq
        rw [← heq.1]
  exact ⟨hid, fun h => by rw [hid]; exact h⟩

theorem Manager_New_ID_witness :
    (Session.mk (str "fixed-id") (1700000000 * Second + Hour) none).ID =
      (NewManager memStore (fun _ => str "fixed-id") Hour).sessionIDFunc 0 ∧
    ((NewManager memStore (fun _ => str "fixed-id") Hour).sessionIDFunc 0 ≠ [] →
      (Session.mk (str "fixed-id") (1700000000 * Second + Hour) none).ID ≠ []) :=
  Manager_New_ID sampleCodec (NewManager memStore (fun _ => str "fixed-id") Hour)
    (1700000000 * Second) { store := [], idCalls := 0 }
    { store := [(str "fixed-id",
        lenBytes (1700000000 * Second + Hour).toNat ++ str "fixed-id")], idCalls := 1 }
    { setCookies := [] }
    { setCookies := [{ Name := str "session", Value := str "fixed-id",
                       Expires := some (1700000000 * Second + Hour) }] }
    { cookies := [] } { cookies := [(str "session", str "fixed-id")] } _ (by decide)

/-- C16, counterexample. With a generator that returns the empty string, `Manager.New`
succeeds, returns a session whose `ID` is empty, and the store holds that session
under the empty key. -/
theorem Manager_New_empty_ID :
    (Manager.New sampleCodec (NewManager memStore (fun _ => []) Hour) (1700000000 * Second)
        { store := [], idCalls := 0 } { setCookies := [] } { cookies := [] }).1 =
      .ok { ID := [], ExpiresAt := 1700000000 * Second + Hour, Value := none } ∧
    (memStore.Retrieve
        (Manager.New sampleCodec (NewManager memStore (fun _ => []) Hour)
          (1700000000 * Second) { store := [], idCalls := 0 } { setCookies := [] }
          { cookies := [] }).2.1.store []).1 =
      .ok (lenBytes (1700000000 * Second + Hour).toNat) := by
  decide

/-! ## C20: lookup and expiry -/

/-- C20. Expiry is not enforced by lookup: `Manager.Retrieve` gives the same result
whatever the clock reads; in particular, when the store holds under the cookie's value
bytes that deserialize to a session `s` whose `ExpiresAt` is earlier than the current
time, `Retrieve` returns `s` unchanged, at that time and at any other. -/
theorem Retrieve_ignores_expiry {σ : Type} (codec : Codec) (m : Manager σ) (t1 : Time)
    (st : MState σ) (r : Request) (c : Cookie) (b : List Byte) (s1 : σ) (s : Session)
    (hc : r.Cookie (str "session") = .ok c) (hv : c.Value ≠ [])
    (hst : m.store.Retrieve st.store c.Value = (.ok b, s1))
    (hdec : codec.FromBytes b = .ok s) (_hexp : s.ExpiresAt < t1) :
    (∀ (ta tb : Time) (st0 : MState σ) (r0 : Request),
      Manager.RetrieveAt codec m ta st0 r0 = Manager.RetrieveAt codec m tb st0 r0) ∧
    (∀ t2 : Time, Manager.RetrieveAt codec m t2 st r = (.ok s, { st with store := s1 })) := by
  refine ⟨fun _ _ _ _ => rfl, fun t2 => ?_⟩
  unfold Manager.RetrieveAt Manager.Retrieve
  rw [show sessionCookieName = str "session" from rfl, hc]
  simp only [if_neg hv, Manager.find, hst, hdec]

theorem Retrieve_ignores_expiry_witness :
    (∀ (ta tb : Time) (st0 : MState (List (Str × List Byte))) (r0 : Request),
      Manager.RetrieveAt sampleCodec (NewManager memStore (fun _ => str "fixed-id") Hour)
          ta st0 r0 =
        Manager.RetrieveAt sampleCodec (NewManager memStore (fun _ => str "fixed-id") Hour)
          tb st0 r0) ∧
    (∀ t2 : Time,
      Manager.RetrieveAt sampleCodec (NewManager memStore (fun _ => str "fixed-id") Hour) t2
          { store := [(str "fixed-id", lenBytes 5 ++ str "fixed-id")], idCalls := 1 }
          { cookies := [(str "session", str "fixed-id")] } =
        (.ok { ID := str "fixed-id", ExpiresAt := 5, Value := none },
          { store := [(str "fixed-id", lenBytes 5 ++ str "fixed-id")], idCalls := 1 })) :=
  Retrieve_ignores_expiry sampleCodec (NewManager memStore (fun _ => str "fixed-id") Hour)
    (1700000000 * Second)
    { store := [(str "fixed-id", lenBytes 5 ++ str "fixed-id")], idCalls := 1 }
    { cookies := [(str "session", str "fixed-id")] }
    { Name := str "session", Value := str "fixed-id", Expires := none }
    (lenBytes 5 ++ str "fixed-id") [(str "fixed-id", lenBytes 5 ++ str "fixed-id")]
    { ID := str "fixed-id", ExpiresAt := 5, Value := none }
    (by decide) (by decide) (by decide) (by decide) (by decide)

/-! ## C17: the two failure modes of `Find` -/

/-- C17, as amended. For every store manager, `Find` returns an error and no session,
and leaves the state behind the manager as it was, both on a request without a
"session" cookie and on a request whose "session" cookie fails `decodeSessionID`; the
two errors are different values: `http.ErrNoCookie` in the first case, the error of
`decodeSessionID` in the second ("Invalid session ID", a percent-decoding error or a
base64 error). -/
theorem Find_failure_modes {μ : Type} (secret : Str) (m : StoreManager μ) (st : μ)
    (r1 r2 : Request) (c : Cookie) (e : Error)
    (h1 : ∀ x ∈ r1.cookies, x.1 ≠ str "session")
    (h2 : r2.Cookie (str "session") = .ok c)
    (h3 : decodeSessionID secret c.Value = .error e) :
    Find secret m st r1 = (.error Error.ErrNoCookie, st) ∧
    Find secret m st r2 = (.error e, st) ∧
    (e = InvalidSessionID ∨ (∃ t, e = .EscapeError t) ∨ (∃ n, e = .CorruptInputError n)) ∧
    e ≠ Error.ErrNoCookie ∧
    Find secret m st r1 ≠ Find secret m st r2 := by
  have hk := decodeSessionID_error_kind secret c.Value e h3
  have hne : e ≠ Error.ErrNoCookie := by
    rcases hk with h | ⟨t, h⟩ | ⟨n, h⟩ <;> rw [h] <;> simp [InvalidSessionID]
  have hf1 : Find secret m st r1 = (.error Error.ErrNoCookie, st) := by
    unfold Find
    rw [Cookie_missing r1 cookieName h1]
  have hf2 : Find secret m st r2 = (.error e, st) := by
    unfold Find
    rw [show cookieName = str "session" from rfl, h2]
    simp only
    rw [h3]
  refine ⟨hf1, hf2, hk, hne, ?_⟩
  rw [hf1, hf2]
  intro h
  simp only [Prod.mk.injEq, Except.error.injEq, and_true] at h
  exact hne h.symm

theorem Find_failure_modes_witness :
    Find (str "topsecret") memStoreManager [] { cookies := [(str "lang", str "en")] } =
      (.error Error.ErrNoCookie, []) ∧
    Find (str "topsecret") memStoreManager [] { cookies := [(str "session", str "a-b-c")] } =
      (.error InvalidSessionID, []) ∧
    (InvalidSessionID = InvalidSessionID ∨ (∃ t, InvalidSessionID = .EscapeError t) ∨
      (∃ n, InvalidSessionID = .CorruptInputError n)) ∧
    InvalidSessionID ≠ Error.ErrNoCookie ∧
    Find (str "topsecret") memStoreManager [] { cookies := [(str "lang", str "en")] } ≠
      Find (str "topsecret") memStoreManager [] { cookies := [(str "session", str "a-b-c")] } :=
  Find_failure_modes (str "topsecret") memStoreManager []
    { cookies := [(str "lang", str "en")] } { cookies := [(str "session", str "a-b-c")] }
    { Name := str "session", Value := str "a-b-c", Expires := none } InvalidSessionID
    (by decide) (by decide) (by decide)

/-- C17, counterexample. With the same store manager, `Find` on a request without a
"session" cookie returns `http.ErrNoCookie`, and on a request whose "session" cookie is
`a-b-c` it returns "Invalid session ID": the two results are not equal. -/
theorem Find_failures_distinguishable :
    Find (str "topsecret") memStoreManager [] { cookies := [] } =
      (.error Error.ErrNoCookie, []) ∧
    Find (str "topsecret") memStoreManager [] { cookies := [(str "session", str "a-b-c")] } =
      (.error (Error.Errorf (str "Invalid session ID")), []) ∧
    Find (str "topsecret") memStoreManager [] { cookies := [] } ≠
      Find (str "topsecret") memStoreManager [] { cookies := [(str "session", str "a-b-c")] } := by
  decide

/-! ## C18: the shape of the cookie value -/

set_option maxRecDepth 100000 in
theorem raw_byte_facts : ∀ c : Byte,
    (shouldEscape c = false → c ≠ chPlus ∧ c ≠ 47 ∧ c ≠ chPad) ∧
    upperhex.getD (c.val >>> 4) 0 ≠ chPlus ∧ upperhex.getD (c.val >>> 4) 0 ≠ 47 ∧
    upperhex.getD (c.val >>> 4) 0 ≠ chPad ∧
    upperhex.getD (c.val &&& 15) 0 ≠ chPlus ∧ upperhex.getD (c.val &&& 15) 0 ≠ 47 ∧
    upperhex.getD (c.val &&& 15) 0 ≠ chPad := by
  decide

set_option maxRecDepth 100000 in
theorem encodeChar_ne_space : ∀ i : Fin 64, encodeChar i.val ≠ chSpace := by
  decide

theorem encodeChar_sextet_ne_space (x : Nat) : encodeChar (x &&& 0x3F) ≠ chSpace := by
  have hlt : x &&& 0x3F < 64 := by rw [and63]; omega
  exact encodeChar_ne_space ⟨x &&& 0x3F, hlt⟩

theorem space_not_mem_EncodeToString (bs : List Byte) : chSpace ∉ EncodeToString bs := by
  induction bs using EncodeToString.induct with
  | case1 b0 b1 b2 rest ih =>
    rw [EncodeToString]
    simp only [List.mem_cons, not_or]
    exact ⟨fun e => encodeChar_sextet_ne_space _ e.symm,
      fun e => encodeChar_sextet_ne_space _ e.symm,
      fun e => encodeChar_sextet_ne_space _ e.symm,
      fun e => encodeChar_sextet_ne_space _ e.symm, ih⟩
  | case2 b0 b1 =>
    rw [EncodeToString]
    simp only [List.mem_cons, not_or, List.mem_nil_iff, not_false_eq_true, and_true]
    exact ⟨fun e => encodeChar_sextet_ne_space _ e.symm,
      fun e => encodeChar_sextet_ne_space _ e.symm,
      fun e => encodeChar_sextet_ne_space _ e.symm, by decide⟩
  | case3 b0 =>
    rw [EncodeToString]
    simp only [List.mem_cons, not_or, List.mem_nil_iff, not_false_eq_true, and_true]
    exact ⟨fun e => encodeChar_sextet_ne_space _ e.symm,
      fun e => encodeChar_sextet_ne_space _ e.symm, by decide, by decide⟩
  | case4 => simp [EncodeToString]

/-- Percent-encoding a string without a space leaves no raw `'+'`, `'/'` or `'='`. -/
theorem QueryEscape_no_raw (s : Str) (h : chSpace ∉ s) :
    chPlus ∉ QueryEscape s ∧ (47 : Byte) ∉ QueryEscape s ∧ chPad ∉ QueryEscape s := by
  induction s with
  | nil => simp [QueryEscape]
  | cons c rest ih =>
    simp only [List.mem_cons, not_or] at h
    obtain ⟨i1, i2, i3⟩ := ih h.2
    obtain ⟨f0, f1, f2, f3, f4, f5, f6⟩ := raw_byte_facts c
    rw [QueryEscape]
    by_cases hs : shouldEscape c = true
    · have hsp : ¬ c = chSpace := fun e => h.1 e.symm
      simp only [hs, if_true, if_neg hsp, List.mem_cons, not_or]
      exact ⟨⟨by decide, fun e => f1 e.symm, fun e => f4 e.symm, i1⟩,
        ⟨by decide, fun e => f2 e.symm, fun e => f5 e.symm, i2⟩,
        ⟨by decide, fun e => f3 e.symm, fun e => f6 e.symm, i3⟩⟩
    · have hs2 : shouldEscape c = false := by simpa using hs
      obtain ⟨g1, g2, g3⟩ := f0 hs2
      simp only [hs2, Bool.false_eq_true, if_false, List.mem_cons, not_or]
      exact ⟨⟨fun e => g1 e.symm, i1⟩, ⟨fun e => g2 e.symm, i2⟩, ⟨fun e => g3 e.symm, i3⟩⟩

/-- C18. Shape of the encoded cookie value: percent-decoding `encodeSessionID id`
gives the standard base64 of the ID, a dash, and the signature; the signature is 40
lower-case hex digits, the hex of the HMAC-SHA1; the base64 body holds no dash, so the
decoded string has exactly one; and the percent-encoded value itself holds no raw
`'+'`, `'/'` or `'='`. -/
theorem encodeSessionID_shape (secret sid : Str) :
    QueryUnescape (encodeSessionID secret sid) =
      .ok (EncodeToString sid ++ chDash :: hex (hmacSHA1 secret sid)) ∧
    (hex (hmacSHA1 secret sid)).length = 40 ∧
    (∀ c ∈ hex (hmacSHA1 secret sid), lowerHexDigit c = true) ∧
    chDash ∉ EncodeToString sid ∧
    (EncodeToString sid ++ chDash :: hex (hmacSHA1 secret sid)).count chDash = 1 ∧
    chPlus ∉ encodeSessionID secret sid ∧ (47 : Byte) ∉ encodeSessionID secret sid ∧
    chPad ∉ encodeSessionID secret sid := by
  have hsig : ∀ c ∈ hex (hmacSHA1 secret sid), lowerHexDigit c = true := hex_lower _
  have hbody := dash_not_mem_EncodeToString sid
  have hspace : chSpace ∉ EncodeToString sid ++ chDash :: hex (hmacSHA1 secret sid) := by
    simp only [List.mem_append, List.mem_cons, not_or]
    exact ⟨space_not_mem_EncodeToString sid, by decide,
      fun hc => (lowerHexDigit_facts _ (hsig _ hc)).2.2.2.1 rfl⟩
  have hraw := QueryEscape_no_raw _ hspace
  refine ⟨QueryUnescape_QueryEscape _, signature_length secret sid, hsig, hbody, ?_,
    hraw.1, hraw.2.1, hraw.2.2⟩
  rw [List.count_append, List.count_cons_self, List.count_eq_zero.mpr hbody,
    List.count_eq_zero.mpr (lower_no_dash _ hsig)]

end SessionPkg
